import Mathlib

set_option maxHeartbeats 1600000

/-!
Verification of the replicate-configuration validator (Go package
`replicateutil`, type `ReplicateConfigValidator`).  The definitions below are
a shallow embedding of the Go source: protobuf pointer fields become `Option`,
Go maps become association lists whose keys are kept unique at insertion, the
mutable `isPChannelIncreasing` field is threaded explicitly, and each
`fmt.Errorf` site becomes one constructor of `ValidationError`.  The external
function `url.ParseRequestURI` (Go standard library, not part of this
repository) is abstracted as a `String → Bool` parameter.
-/

namespace ReplicateUtil

/-- Connection parameters of a cluster (protobuf message `ConnectionParam`):
a URI and an opaque token. -/
structure ConnectionParam where
  uri : String
  token : String
  deriving DecidableEq

/-- A declared Milvus cluster (protobuf message `MilvusCluster`). -/
structure MilvusCluster where
  clusterId : String
  connectionParam : Option ConnectionParam
  pchannels : List String
  deriving DecidableEq

/-- A directed replication edge (protobuf message `CrossClusterTopology`). -/
structure CrossClusterTopology where
  sourceClusterId : String
  targetClusterId : String
  deriving DecidableEq

/-- A replication configuration (protobuf message `ReplicateConfiguration`).
List entries are pointers in Go and may be nil, hence `Option`. -/
structure ReplicateConfiguration where
  clusters : List (Option MilvusCluster)
  crossClusterTopology : List (Option CrossClusterTopology)
  deriving DecidableEq

/-- Nil-safe protobuf getter `GetClusterId`. -/
def getClusterId : Option MilvusCluster → String
  | none => ""
  | some c => c.clusterId

/-- Nil-safe protobuf getter `GetPchannels`. -/
def getPchannels : Option MilvusCluster → List String
  | none => []
  | some c => c.pchannels

/-- Nil-safe protobuf getter `GetConnectionParam`. -/
def getConnectionParam : Option MilvusCluster → Option ConnectionParam
  | none => none
  | some c => c.connectionParam

/-- Nil-safe protobuf getter `GetUri`. -/
def getUri : Option ConnectionParam → String
  | none => ""
  | some p => p.uri

/-- Nil-safe protobuf getter `GetToken`. -/
def getToken : Option ConnectionParam → String
  | none => ""
  | some p => p.token

/-- Nil-safe protobuf getter `GetSourceClusterId`. -/
def getSourceClusterId : Option CrossClusterTopology → String
  | none => ""
  | some t => t.sourceClusterId

/-- Nil-safe protobuf getter `GetTargetClusterId`. -/
def getTargetClusterId : Option CrossClusterTopology → String
  | none => ""
  | some t => t.targetClusterId

/-- Nil-safe protobuf getter `GetClusters`. -/
def getClusters : Option ReplicateConfiguration → List (Option MilvusCluster)
  | none => []
  | some c => c.clusters

/-- Nil-safe protobuf getter `GetCrossClusterTopology`. -/
def getCrossClusterTopology : Option ReplicateConfiguration → List (Option CrossClusterTopology)
  | none => []
  | some c => c.crossClusterTopology

/-- First-match association lookup, modelling Go map indexing.  All maps in
the validator keep their keys unique at insertion time. -/
def lookupStr {α : Type} : List (String × α) → String → Option α
  | [], _ => none
  | p :: rest, k => if p.1 = k then some p.2 else lookupStr rest k

/-- Go two-result map lookup `_, exists := m[k]`. -/
def containsKey {α : Type} (m : List (String × α)) (k : String) : Bool :=
  (lookupStr m k).isSome

/-- Key list of an association map. -/
def keysOf {α : Type} (m : List (String × α)) : List String :=
  m.map Prod.fst

/-- Go map assignment `m[k] = v`: replace the binding when the key is already
present, append a new binding otherwise. -/
def mapUpsert {α : Type} : List (String × α) → String → α → List (String × α)
  | [], k, v => [(k, v)]
  | p :: rest, k, v =>
    if p.1 = k then (p.1, v) :: rest else p :: mapUpsert rest k v

/-- The distinct error returns of the validator, one constructor per
`fmt.Errorf` site of the Go source, carrying the data interpolated into the
message. -/
inductive ValidationError : Type where
  | configNil : ValidationError
  | clustersEmpty : ValidationError
  | clusterNil : Nat → ValidationError
  | emptyClusterID : Nat → ValidationError
  | whitespaceClusterID : Nat → String → ValidationError
  | nilConnectionParam : String → ValidationError
  | emptyURI : String → ValidationError
  | invalidURI : String → String → ValidationError
  | duplicateURI : String → String → String → ValidationError
  | emptyPchannels : String → ValidationError
  | emptyPchannel : String → Nat → ValidationError
  | duplicatePchannel : String → String → ValidationError
  | pchannelCountMismatch : String → Nat → Nat → String → ValidationError
  | duplicateClusterID : String → ValidationError
  | notIncluded : String → ValidationError
  | relevanceMismatch : List String → List String → ValidationError
  | topologyNil : Nat → ValidationError
  | nonexistentSource : Nat → String → ValidationError
  | nonexistentTarget : Nat → String → ValidationError
  | duplicateEdge : String → ValidationError
  | multipleCenterNodes : ValidationError
  | noCenterNode : ValidationError
  | notStarPattern : String → Nat → Nat → ValidationError
  | pchannelsDecrease : String → Nat → Nat → ValidationError
  | pchannelsNotPreserved : String → List String → List String → ValidationError
  | uriChanged : String → String → String → ValidationError
  | tokenChanged : String → ValidationError
  | growthClusterCount : Nat → Nat → ValidationError
  | growthClusterMissing : String → ValidationError
  | growthTopoCount : Nat → Nat → ValidationError
  | growthEdgeMissing : String → ValidationError
  deriving DecidableEq

instance {α : Type} [DecidableEq α] : DecidableEq (Except ValidationError α) := fun
  | .ok a, .ok b =>
    match decEq a b with
    | isTrue h => isTrue (by rw [h])
    | isFalse h => isFalse (fun hc => h (by injection hc))
  | .error a, .error b =>
    match decEq a b with
    | isTrue h => isTrue (by rw [h])
    | isFalse h => isFalse (fun hc => h (by injection hc))
  | .ok _, .error _ => isFalse (fun h => Except.noConfusion h)
  | .error _, .ok _ => isFalse (fun h => Except.noConfusion h)

/-- `strings.ContainsAny(s, " \t\n\r")`. -/
def containsWhitespace (s : String) : Bool :=
  s.data.any (fun c => c == ' ' || c == '\t' || c == '\n' || c == '\r')

/-- Inner pchannel loop of `validateClusterBasic` (index `j`, seen-set):
rejects empty and duplicated channel names within one cluster. -/
def checkPchannelList (clusterID : String) :
    List String → Nat → List String → Except ValidationError Unit
  | [], _, _ => .ok ()
  | p :: rest, j, seen =>
    if p = "" then .error (.emptyPchannel clusterID j)
    else if p ∈ seen then .error (.duplicatePchannel clusterID p)
    else checkPchannelList clusterID rest (j + 1) (p :: seen)

/-- `validateClusterBasic`: single pass over the cluster list with index `i`,
the running slot count, the first cluster id, the URI table and the cluster
map as accumulators. -/
def validateClusterBasicAux (parseURIOk : String → Bool) :
    List (Option MilvusCluster) → Nat → Nat → String → List (String × String) →
    List (String × Option MilvusCluster) →
    Except ValidationError (List (String × Option MilvusCluster))
  | [], _, _, _, _, cmap => .ok cmap
  | oc :: rest, i, expected, firstID, uriSet, cmap =>
    match oc with
    | none => .error (.clusterNil i)
    | some cluster =>
      if cluster.clusterId = "" then .error (.emptyClusterID i)
      else if containsWhitespace cluster.clusterId then
        .error (.whitespaceClusterID i cluster.clusterId)
      else match cluster.connectionParam with
        | none => .error (.nilConnectionParam cluster.clusterId)
        | some connParam =>
          if connParam.uri = "" then .error (.emptyURI cluster.clusterId)
          else if parseURIOk connParam.uri = false then
            .error (.invalidURI cluster.clusterId connParam.uri)
          else match lookupStr uriSet connParam.uri with
            | some existingClusterID =>
              .error (.duplicateURI connParam.uri existingClusterID cluster.clusterId)
            | none =>
              if cluster.pchannels = [] then .error (.emptyPchannels cluster.clusterId)
              else match checkPchannelList cluster.clusterId cluster.pchannels 0 [] with
                | .error e => .error e
                | .ok _ =>
                  if i ≠ 0 ∧ cluster.pchannels.length ≠ expected then
                    .error (.pchannelCountMismatch cluster.clusterId
                      cluster.pchannels.length expected firstID)
                  else match lookupStr cmap cluster.clusterId with
                    | some _ => .error (.duplicateClusterID cluster.clusterId)
                    | none =>
                      validateClusterBasicAux parseURIOk rest (i + 1)
                        (if i = 0 then cluster.pchannels.length else expected)
                        (if i = 0 then cluster.clusterId else firstID)
                        (uriSet ++ [(connParam.uri, cluster.clusterId)])
                        (cmap ++ [(cluster.clusterId, oc)])

/-- `validateClusterBasic` entry point. -/
def validateClusterBasic (parseURIOk : String → Bool)
    (clusters : List (Option MilvusCluster)) :
    Except ValidationError (List (String × Option MilvusCluster)) :=
  validateClusterBasicAux parseURIOk clusters 0 0 "" [] []

/-- Occurrence count of a string in a list (the Go `counts` map of
`equalIgnoreOrder`). -/
def countStr : List String → String → Nat
  | [], _ => 0
  | x :: rest, s => (if x = s then 1 else 0) + countStr rest s

/-- Second loop of `equalIgnoreOrder`: draw each element of `b` from the
remaining counts, failing when a count is exhausted. -/
def eioLoop : List String → (String → Nat) → Bool
  | [], _ => true
  | v :: rest, counts =>
    if counts v = 0 then false
    else eioLoop rest (fun s => if s = v then counts s - 1 else counts s)

/-- `equalIgnoreOrder`: multiset equality of two string lists. -/
def equalIgnoreOrder (a b : List String) : Bool :=
  if a.length = b.length then eioLoop b (countStr a) else false

/-- `validateRelevance`: the local cluster must be declared and its declared
pchannels must equal the local pchannels as multisets. -/
def validateRelevance (cmap : List (String × Option MilvusCluster))
    (currentClusterID : String) (currentPChannels : List String) :
    Except ValidationError Unit :=
  match lookupStr cmap currentClusterID with
  | none => .error (.notIncluded currentClusterID)
  | some currentCluster =>
    if equalIgnoreOrder currentPChannels (getPchannels currentCluster) then .ok ()
    else .error (.relevanceMismatch currentPChannels (getPchannels currentCluster))

/-- The Go edge key `source->target` (built with string concatenation in both
`validateTopologyEdgeUniqueness` and the growth-mode topology comparison). -/
def edgeKey (t : Option CrossClusterTopology) : String :=
  getSourceClusterId t ++ "->" ++ getTargetClusterId t

/-- Loop of `validateTopologyEdgeUniqueness` with index `i` and the edge-key
set accumulator. -/
def validateTopologyEdgeUniquenessAux (cmap : List (String × Option MilvusCluster)) :
    List (Option CrossClusterTopology) → Nat → List String →
    Except ValidationError Unit
  | [], _, _ => .ok ()
  | ot :: rest, i, edgeSet =>
    match ot with
    | none => .error (.topologyNil i)
    | some t =>
      if containsKey cmap (getSourceClusterId (some t)) = false then
        .error (.nonexistentSource i (getSourceClusterId (some t)))
      else if containsKey cmap (getTargetClusterId (some t)) = false then
        .error (.nonexistentTarget i (getTargetClusterId (some t)))
      else if edgeKey (some t) ∈ edgeSet then
        .error (.duplicateEdge (edgeKey (some t)))
      else validateTopologyEdgeUniquenessAux cmap rest (i + 1) (edgeKey (some t) :: edgeSet)

/-- `validateTopologyEdgeUniqueness` entry point. -/
def validateTopologyEdgeUniqueness (cmap : List (String × Option MilvusCluster))
    (topologies : List (Option CrossClusterTopology)) : Except ValidationError Unit :=
  if topologies = [] then .ok ()
  else validateTopologyEdgeUniquenessAux cmap topologies 0 []

/-- Out-degree of cluster `c`: the number of edges whose source is `c`
(the Go `outDegree` map entry). -/
def outDeg (topologies : List (Option CrossClusterTopology)) (c : String) : Nat :=
  (topologies.filter (fun t => getSourceClusterId t == c)).length

/-- In-degree of cluster `c`: the number of edges whose target is `c`
(the Go `inDegree` map entry). -/
def inDeg (topologies : List (Option CrossClusterTopology)) (c : String) : Nat :=
  (topologies.filter (fun t => getTargetClusterId t == c)).length

/-- Center scan of `validateTopologyTypeConstraint`; the empty string plays
the Go role of `centerNode` not yet assigned. -/
def findCenterLoop (topologies : List (Option CrossClusterTopology))
    (clusterCount : Nat) :
    List String → String → Except ValidationError String
  | [], centerNode =>
    if centerNode = "" then .error .noCenterNode else .ok centerNode
  | c :: rest, centerNode =>
    if outDeg topologies c = clusterCount - 1 ∧ inDeg topologies c = 0 then
      if centerNode ≠ "" then .error .multipleCenterNodes
      else findCenterLoop topologies clusterCount rest c
    else findCenterLoop topologies clusterCount rest centerNode

/-- Leaf scan of `validateTopologyTypeConstraint`: every non-center cluster
must have in-degree 1 and out-degree 0. -/
def checkLeaves (topologies : List (Option CrossClusterTopology))
    (centerNode : String) : List String → Except ValidationError Unit
  | [] => .ok ()
  | c :: rest =>
    if c = centerNode then checkLeaves topologies centerNode rest
    else if inDeg topologies c ≠ 1 ∨ outDeg topologies c ≠ 0 then
      .error (.notStarPattern c (inDeg topologies c) (outDeg topologies c))
    else checkLeaves topologies centerNode rest

/-- `validateTopologyTypeConstraint`: the non-empty edge list must form a
star over the declared clusters. -/
def validateTopologyTypeConstraint (cmap : List (String × Option MilvusCluster))
    (topologies : List (Option CrossClusterTopology)) : Except ValidationError Unit :=
  if topologies = [] then .ok ()
  else match findCenterLoop topologies cmap.length (keysOf cmap) "" with
    | .error e => .error e
    | .ok centerNode => checkLeaves topologies centerNode (keysOf cmap)

/-- `validateClusterConsistency`; returns the Go result together with the
updated `isPChannelIncreasing` field (which is assigned before the URI and
token checks of the same cluster run). -/
def validateClusterConsistency (current incoming : Option MilvusCluster)
    (flag : Bool) : Except ValidationError Unit × Bool :=
  if (getPchannels incoming).length < (getPchannels current).length then
    (.error (.pchannelsDecrease (getClusterId current)
      (getPchannels current).length (getPchannels incoming).length), flag)
  else if ¬ ((getPchannels incoming).take (getPchannels current).length
      = getPchannels current) then
    (.error (.pchannelsNotPreserved (getClusterId current)
      (getPchannels current) (getPchannels incoming)), flag)
  else
    let flag' := if (getPchannels current).length < (getPchannels incoming).length
      then true else flag
    if ¬ (getUri (getConnectionParam current) = getUri (getConnectionParam incoming)) then
      (.error (.uriChanged (getClusterId current)
        (getUri (getConnectionParam current)) (getUri (getConnectionParam incoming))), flag')
    else if ¬ (getToken (getConnectionParam current) = getToken (getConnectionParam incoming)) then
      (.error (.tokenChanged (getClusterId current)), flag')
    else (.ok (), flag')

/-- Builds the current ClusterID → Cluster map of `validateConfigComparison`
(nil clusters skipped, later entries overwrite earlier ones). -/
def buildCurrentMapAux (m : List (String × Option MilvusCluster)) :
    List (Option MilvusCluster) → List (String × Option MilvusCluster)
  | [] => m
  | none :: rest => buildCurrentMapAux m rest
  | some c :: rest => buildCurrentMapAux (mapUpsert m c.clusterId (some c)) rest

/-- The current-config cluster map. -/
def buildCurrentMap (clusters : List (Option MilvusCluster)) :
    List (String × Option MilvusCluster) :=
  buildCurrentMapAux [] clusters

/-- The incoming-cluster loop of `validateConfigComparison`: clusters also
present in the current map are checked for consistency, new clusters are
allowed. -/
def consistencyLoop (currentClusterMap : List (String × Option MilvusCluster)) :
    List (Option MilvusCluster) → Bool → Except ValidationError Unit × Bool
  | [], flag => (.ok (), flag)
  | oc :: rest, flag =>
    match lookupStr currentClusterMap (getClusterId oc) with
    | some currentCluster =>
      match validateClusterConsistency currentCluster oc flag with
      | (.error e, flag') => (.error e, flag')
      | (.ok _, flag') => consistencyLoop currentClusterMap rest flag'
    | none => consistencyLoop currentClusterMap rest flag

/-- Growth-mode cluster-set containment loop. -/
def checkClusterKeys (cmap : List (String × Option MilvusCluster)) :
    List String → Except ValidationError Unit
  | [] => .ok ()
  | k :: rest =>
    if containsKey cmap k = false then .error (.growthClusterMissing k)
    else checkClusterKeys cmap rest

/-- Growth-mode edge containment loop. -/
def checkIncomingEdges (currentEdges : List String) :
    List (Option CrossClusterTopology) → Except ValidationError Unit
  | [] => .ok ()
  | t :: rest =>
    if edgeKey t ∈ currentEdges then checkIncomingEdges currentEdges rest
    else .error (.growthEdgeMissing (edgeKey t))

/-- `validatePChannelIncreasingConstraints`: when pchannels grow, the
cluster set and the topology must remain identical. -/
def validatePChannelIncreasingConstraints
    (currentClusterMap cmap : List (String × Option MilvusCluster))
    (currentTopos incomingTopos : List (Option CrossClusterTopology)) :
    Except ValidationError Unit :=
  if ¬ (currentClusterMap.length = cmap.length) then
    .error (.growthClusterCount currentClusterMap.length cmap.length)
  else match checkClusterKeys cmap (keysOf currentClusterMap) with
    | .error e => .error e
    | .ok _ =>
      if ¬ (currentTopos.length = incomingTopos.length) then
        .error (.growthTopoCount currentTopos.length incomingTopos.length)
      else checkIncomingEdges (currentTopos.map edgeKey) incomingTopos

/-- `validateConfigComparison`, threading the `isPChannelIncreasing` field. -/
def validateConfigComparison (incomingConfig currentConfig : Option ReplicateConfiguration)
    (cmap : List (String × Option MilvusCluster)) (flag : Bool) :
    Except ValidationError Unit × Bool :=
  match consistencyLoop (buildCurrentMap (getClusters currentConfig))
      (getClusters incomingConfig) flag with
  | (.error e, flag') => (.error e, flag')
  | (.ok _, flag') =>
    if flag' then
      (validatePChannelIncreasingConstraints
        (buildCurrentMap (getClusters currentConfig)) cmap
        (getCrossClusterTopology currentConfig)
        (getCrossClusterTopology incomingConfig), flag')
    else (.ok (), flag')

/-- One full `Validate()` call on a fresh validator: the Go error result
paired with the final `isPChannelIncreasing` field. -/
def runValidate (parseURIOk : String → Bool)
    (incomingConfig currentConfig : Option ReplicateConfiguration)
    (currentClusterID : String) (currentPChannels : List String) :
    Except ValidationError Unit × Bool :=
  match incomingConfig with
  | none => (.error .configNil, false)
  | some cfg =>
    if cfg.clusters = [] then (.error .clustersEmpty, false)
    else match validateClusterBasic parseURIOk cfg.clusters with
      | .error e => (.error e, false)
      | .ok cmap =>
        match validateRelevance cmap currentClusterID currentPChannels with
        | .error e => (.error e, false)
        | .ok _ =>
          match validateTopologyEdgeUniqueness cmap cfg.crossClusterTopology with
          | .error e => (.error e, false)
          | .ok _ =>
            match validateTopologyTypeConstraint cmap cfg.crossClusterTopology with
            | .error e => (.error e, false)
            | .ok _ =>
              match currentConfig with
              | none => (.ok (), false)
              | some _ =>
                validateConfigComparison incomingConfig currentConfig cmap false

/-- The `Validate()` return value. -/
def Validate (parseURIOk : String → Bool)
    (incomingConfig currentConfig : Option ReplicateConfiguration)
    (currentClusterID : String) (currentPChannels : List String) :
    Except ValidationError Unit :=
  (runValidate parseURIOk incomingConfig currentConfig currentClusterID currentPChannels).1

/-- `IsPChannelIncreasing()` queried after the `Validate()` call. -/
def IsPChannelIncreasing (parseURIOk : String → Bool)
    (incomingConfig currentConfig : Option ReplicateConfiguration)
    (currentClusterID : String) (currentPChannels : List String) : Bool :=
  (runValidate parseURIOk incomingConfig currentConfig currentClusterID currentPChannels).2

/-- Validation phase of an error: 0 entry pre-checks, 1 cluster-basic,
2 relevance, 3 topology edge uniqueness, 4 star shape, 5 per-cluster
transition consistency, 6 growth-mode tightening. -/
def phaseOfError : ValidationError → Nat
  | .configNil => 0
  | .clustersEmpty => 0
  | .clusterNil _ => 1
  | .emptyClusterID _ => 1
  | .whitespaceClusterID _ _ => 1
  | .nilConnectionParam _ => 1
  | .emptyURI _ => 1
  | .invalidURI _ _ => 1
  | .duplicateURI _ _ _ => 1
  | .emptyPchannels _ => 1
  | .emptyPchannel _ _ => 1
  | .duplicatePchannel _ _ => 1
  | .pchannelCountMismatch _ _ _ _ => 1
  | .duplicateClusterID _ => 1
  | .notIncluded _ => 2
  | .relevanceMismatch _ _ => 2
  | .topologyNil _ => 3
  | .nonexistentSource _ _ => 3
  | .nonexistentTarget _ _ => 3
  | .duplicateEdge _ => 3
  | .multipleCenterNodes => 4
  | .noCenterNode => 4
  | .notStarPattern _ _ _ => 4
  | .pchannelsDecrease _ _ _ => 5
  | .pchannelsNotPreserved _ _ _ => 5
  | .uriChanged _ _ _ => 5
  | .tokenChanged _ => 5
  | .growthClusterCount _ _ => 6
  | .growthClusterMissing _ => 6
  | .growthTopoCount _ _ => 6
  | .growthEdgeMissing _ => 6

/-- The map entry produced for a cluster by `validateClusterBasic`. -/
def entryOf (oc : Option MilvusCluster) : String × Option MilvusCluster :=
  (getClusterId oc, oc)

/-- Boolean test that two lists have the same members (equal as sets,
ignoring order and multiplicity). -/
def sameMembers {α : Type} [DecidableEq α] (a b : List α) : Bool :=
  a.all (fun x => decide (x ∈ b)) && b.all (fun x => decide (x ∈ a))

/-- The (source, target) pair of an edge. -/
def edgePair (t : Option CrossClusterTopology) : String × String :=
  (getSourceClusterId t, getTargetClusterId t)

/-- Stand-in for the external `url.ParseRequestURI` (Go standard library)
succeeding.  Every URI in the concrete configurations below has the form
"http://…", which `url.ParseRequestURI` accepts (absolute URI with scheme
"http"), so on every URI inspected in those runs this function returns the
same verdict as the Go parser and the concrete runs coincide with the
program's behavior. -/
def parseURIAlways : String → Bool := fun _ => true

/-- A valid three-cluster star configuration centred at c1. -/
def starCfg : ReplicateConfiguration :=
  { clusters :=
      [ some { clusterId := "c1", connectionParam := some { uri := "http://u1", token := "" }, pchannels := ["ch"] }
      , some { clusterId := "c2", connectionParam := some { uri := "http://u2", token := "" }, pchannels := ["ch"] }
      , some { clusterId := "c3", connectionParam := some { uri := "http://u3", token := "" }, pchannels := ["ch"] } ]
  , crossClusterTopology :=
      [ some { sourceClusterId := "c1", targetClusterId := "c2" }
      , some { sourceClusterId := "c1", targetClusterId := "c3" } ] }

/-- Incoming side of the edge-key collision example: two clusters named `a`
and `a->a`, each grown to two pchannels, edge a → a->a. -/
def keyClashInc : ReplicateConfiguration :=
  { clusters :=
      [ some { clusterId := "a", connectionParam := some { uri := "http://u1", token := "t" }, pchannels := ["p", "q"] }
      , some { clusterId := "a->a", connectionParam := some { uri := "http://u2", token := "t" }, pchannels := ["p", "q"] } ]
  , crossClusterTopology := [ some { sourceClusterId := "a", targetClusterId := "a->a" } ] }

/-- Current side of the edge-key collision example: same clusters with one
pchannel each, but the reversed edge a->a → a, whose rendered key collides
with the incoming one. -/
def keyClashCur : ReplicateConfiguration :=
  { clusters :=
      [ some { clusterId := "a", connectionParam := some { uri := "http://u1", token := "t" }, pchannels := ["p"] }
      , some { clusterId := "a->a", connectionParam := some { uri := "http://u2", token := "t" }, pchannels := ["p"] } ]
  , crossClusterTopology := [ some { sourceClusterId := "a->a", targetClusterId := "a" } ] }

/-- Incoming configuration whose single cluster grows its pchannels and
changes its token in the same step. -/
def tokenGrowInc : ReplicateConfiguration :=
  { clusters :=
      [ some { clusterId := "a", connectionParam := some { uri := "http://u1", token := "t2" }, pchannels := ["p", "q"] } ]
  , crossClusterTopology := [] }

/-- Current configuration for the token-change-during-growth example. -/
def tokenGrowCur : ReplicateConfiguration :=
  { clusters :=
      [ some { clusterId := "a", connectionParam := some { uri := "http://u1", token := "t1" }, pchannels := ["p"] } ]
  , crossClusterTopology := [] }

/-- Two-cluster current configuration with one pchannel each, edge c1 → c2. -/
def growCur : ReplicateConfiguration :=
  { clusters :=
      [ some { clusterId := "c1", connectionParam := some { uri := "http://u1", token := "" }, pchannels := ["p"] }
      , some { clusterId := "c2", connectionParam := some { uri := "http://u2", token := "" }, pchannels := ["p"] } ]
  , crossClusterTopology := [ some { sourceClusterId := "c1", targetClusterId := "c2" } ] }

/-- The same two clusters with pchannels grown to two, same edge. -/
def growInc : ReplicateConfiguration :=
  { clusters :=
      [ some { clusterId := "c1", connectionParam := some { uri := "http://u1", token := "" }, pchannels := ["p", "q"] }
      , some { clusterId := "c2", connectionParam := some { uri := "http://u2", token := "" }, pchannels := ["p", "q"] } ]
  , crossClusterTopology := [ some { sourceClusterId := "c1", targetClusterId := "c2" } ] }

/-- Growth combined with a new third cluster and a new edge. -/
def growPlusNewInc : ReplicateConfiguration :=
  { clusters :=
      [ some { clusterId := "c1", connectionParam := some { uri := "http://u1", token := "" }, pchannels := ["p", "q"] }
      , some { clusterId := "c2", connectionParam := some { uri := "http://u2", token := "" }, pchannels := ["p", "q"] }
      , some { clusterId := "c3", connectionParam := some { uri := "http://u3", token := "" }, pchannels := ["p", "q"] } ]
  , crossClusterTopology :=
      [ some { sourceClusterId := "c1", targetClusterId := "c2" }
      , some { sourceClusterId := "c1", targetClusterId := "c3" } ] }

/-- A current configuration sharing only cluster c1 (unchanged) with
`starCfg`, with no edges. -/
def oneClusterCur : ReplicateConfiguration :=
  { clusters :=
      [ some { clusterId := "c1", connectionParam := some { uri := "http://u1", token := "" }, pchannels := ["ch"] } ]
  , crossClusterTopology := [] }

/-- A configuration whose single cluster has an empty id. -/
def emptyIdCfg : ReplicateConfiguration :=
  { clusters :=
      [ some { clusterId := "", connectionParam := some { uri := "http://u1", token := "" }, pchannels := ["p"] } ]
  , crossClusterTopology := [] }

@[simp]
theorem keysOf_nil {α : Type} : keysOf ([] : List (String × α)) = [] := rfl

@[simp]
theorem keysOf_cons {α : Type} (p : String × α) (m : List (String × α)) :
    keysOf (p :: m) = p.1 :: keysOf m := rfl

@[simp]
theorem keysOf_append {α : Type} (m m' : List (String × α)) :
    keysOf (m ++ m') = keysOf m ++ keysOf m' := by
  simp [keysOf]

theorem lookupStr_eq_none_iff {α : Type} (m : List (String × α)) (k : String) :
    lookupStr m k = none ↔ k ∉ keysOf m := by
  induction m with
  | nil => simp [lookupStr]
  | cons p rest ih =>
    by_cases h : p.1 = k
    · subst h
      simp [lookupStr]
    · have hk : ¬ (k = p.1) := fun hh => h hh.symm
      simp [lookupStr, h, hk, ih]

theorem containsKey_iff {α : Type} (m : List (String × α)) (k : String) :
    containsKey m k = true ↔ k ∈ keysOf m := by
  simp [containsKey, Option.isSome_iff_ne_none, Ne, lookupStr_eq_none_iff]

theorem lookupStr_mem {α : Type} {m : List (String × α)} {k : String} {v : α}
    (h : lookupStr m k = some v) : (k, v) ∈ m := by
  induction m with
  | nil => simp [lookupStr] at h
  | cons p rest ih =>
    rw [lookupStr] at h
    split at h
    · next hp =>
      injection h with hv
      subst hv
      rw [← hp]
      simp
    · exact List.mem_cons_of_mem _ (ih h)

theorem lookupStr_mapUpsert {α : Type} (m : List (String × α)) (k k' : String) (v : α) :
    lookupStr (mapUpsert m k v) k' = if k = k' then some v else lookupStr m k' := by
  induction m with
  | nil => simp [mapUpsert, lookupStr]
  | cons p rest ih =>
    rw [mapUpsert]
    by_cases hp : p.1 = k
    · rw [if_pos hp]
      by_cases hk : k = k'
      · subst hk
        simp [lookupStr, hp]
      · simp [lookupStr, hp, hk]
    · rw [if_neg hp, lookupStr]
      by_cases hpk : p.1 = k'
      · have hne : ¬ (k = k') := fun hh => hp (by rw [hh, hpk])
        rw [if_pos hpk, if_neg hne, lookupStr, if_pos hpk]
      · rw [if_neg hpk, ih, lookupStr, if_neg hpk]

theorem keysOf_mapUpsert {α : Type} (m : List (String × α)) (k : String) (v : α) :
    keysOf (mapUpsert m k v)
      = if k ∈ keysOf m then keysOf m else keysOf m ++ [k] := by
  induction m with
  | nil => simp [mapUpsert]
  | cons p rest ih =>
    rw [mapUpsert]
    by_cases hp : p.1 = k
    · rw [if_pos hp]
      simp [← hp]
    · have hk : ¬ (k = p.1) := fun hh => hp hh.symm
      rw [if_neg hp]
      by_cases hm : k ∈ keysOf rest <;> simp [ih, hm, hk]

theorem keysOf_mapUpsert_nodup {α : Type} {m : List (String × α)}
    (h : (keysOf m).Nodup) (k : String) (v : α) :
    (keysOf (mapUpsert m k v)).Nodup := by
  rw [keysOf_mapUpsert]
  split
  · exact h
  · next hk =>
    refine List.Nodup.append h (List.nodup_singleton k) ?_
    intro a ha hb
    rw [List.mem_singleton] at hb
    subst hb
    exact hk ha

theorem mapUpsert_notMem {α : Type} {m : List (String × α)} {k : String}
    (h : k ∉ keysOf m) (v : α) : mapUpsert m k v = m ++ [(k, v)] := by
  induction m with
  | nil => simp [mapUpsert]
  | cons p rest ih =>
    have h1 : ¬ (p.1 = k) := by
      intro hh
      exact h (by simp [hh])
    have h2 : k ∉ keysOf rest := fun hh => h (by simp [hh])
    rw [mapUpsert, if_neg h1, ih h2]
    simp

theorem buildCurrentMapAux_keys_nodup (cs : List (Option MilvusCluster))
    (m : List (String × Option MilvusCluster)) (h : (keysOf m).Nodup) :
    (keysOf (buildCurrentMapAux m cs)).Nodup := by
  induction cs generalizing m with
  | nil => exact h
  | cons oc rest ih =>
    cases oc with
    | none => exact ih m h
    | some c => exact ih _ (keysOf_mapUpsert_nodup h _ _)

theorem buildCurrentMap_keys_nodup (cs : List (Option MilvusCluster)) :
    (keysOf (buildCurrentMap cs)).Nodup :=
  buildCurrentMapAux_keys_nodup cs [] (by simp)

theorem buildCurrentMapAux_eq (cs : List (Option MilvusCluster))
    (m : List (String × Option MilvusCluster))
    (hsome : ∀ oc ∈ cs, ∃ c, oc = some c)
    (hnd : (cs.map getClusterId).Nodup)
    (hdis : ∀ oc ∈ cs, getClusterId oc ∉ keysOf m) :
    buildCurrentMapAux m cs = m ++ cs.map entryOf := by
  induction cs generalizing m with
  | nil => simp [buildCurrentMapAux]
  | cons oc rest ih =>
    obtain ⟨c, rfl⟩ := hsome oc (List.mem_cons_self _ _)
    rw [buildCurrentMapAux]
    have hid : getClusterId (some c) = c.clusterId := rfl
    have hnotm : c.clusterId ∉ keysOf m := by
      rw [← hid]
      exact hdis _ (List.mem_cons_self _ _)
    rw [mapUpsert_notMem hnotm]
    rw [List.map_cons] at hnd
    have ihres := ih (m ++ [(c.clusterId, some c)])
      (fun oc' h' => hsome oc' (List.mem_cons_of_mem _ h'))
      (List.nodup_cons.mp hnd).2 ?_
    · rw [ihres, List.map_cons]
      have : entryOf (some c) = (c.clusterId, some c) := rfl
      rw [this, List.append_assoc]
      rfl
    · intro oc' h'
      simp only [keysOf_append, List.mem_append]
      rintro (hmem | hone)
      · exact hdis oc' (List.mem_cons_of_mem _ h') hmem
      · simp only [keysOf_cons, keysOf_nil, List.mem_singleton] at hone
        have : getClusterId oc' ∈ rest.map getClusterId := List.mem_map_of_mem _ h'
        rw [hone] at this
        exact (List.nodup_cons.mp hnd).1 this

theorem buildCurrentMap_eq (cs : List (Option MilvusCluster))
    (hsome : ∀ oc ∈ cs, ∃ c, oc = some c)
    (hnd : (cs.map getClusterId).Nodup) :
    buildCurrentMap cs = cs.map entryOf := by
  simpa using buildCurrentMapAux_eq cs [] hsome hnd (by simp)

theorem lookupStr_entries {cs : List (Option MilvusCluster)}
    (hnd : (cs.map getClusterId).Nodup) {oc : Option MilvusCluster}
    (hm : oc ∈ cs) : lookupStr (cs.map entryOf) (getClusterId oc) = some oc := by
  induction cs with
  | nil => simp at hm
  | cons hd rest ih =>
    rw [List.map_cons, lookupStr]
    rw [List.map_cons] at hnd
    rcases List.mem_cons.mp hm with rfl | hmem
    · simp [entryOf]
    · have hne : (entryOf hd).1 ≠ getClusterId oc := by
        intro hh
        have : getClusterId oc ∈ rest.map getClusterId := List.mem_map_of_mem _ hmem
        have heq : getClusterId hd = getClusterId oc := hh
        rw [← heq] at this
        exact (List.nodup_cons.mp hnd).1 this
      rw [if_neg hne]
      exact ih (List.nodup_cons.mp hnd).2 hmem

@[simp]
theorem keysOf_entries (cs : List (Option MilvusCluster)) :
    keysOf (cs.map entryOf) = cs.map getClusterId := by
  simp [keysOf, entryOf, List.map_map]

theorem checkPchannelList_err {clusterID : String} {ps : List String} {j : Nat}
    {seen : List String} {e : ValidationError}
    (h : checkPchannelList clusterID ps j seen = .error e) : phaseOfError e = 1 := by
  induction ps generalizing j seen with
  | nil => simp [checkPchannelList] at h
  | cons q rest ih =>
    rw [checkPchannelList] at h
    split at h
    · injection h with h
      subst h
      rfl
    split at h
    · injection h with h
      subst h
      rfl
    exact ih h

theorem validateClusterBasicAux_ok {p : String → Bool} {cs : List (Option MilvusCluster)}
    {i expected : Nat} {firstID : String} {uriSet : List (String × String)}
    {cmap m : List (String × Option MilvusCluster)}
    (h : validateClusterBasicAux p cs i expected firstID uriSet cmap = .ok m) :
    m = cmap ++ cs.map entryOf ∧
    (∀ oc ∈ cs, ∃ c, oc = some c) ∧
    (∀ oc ∈ cs, getClusterId oc ≠ "") ∧
    ((keysOf cmap).Nodup → (keysOf m).Nodup) := by
  induction cs generalizing i expected firstID uriSet cmap with
  | nil =>
    simp only [validateClusterBasicAux] at h
    injection h with h
    subst h
    exact ⟨by simp, by simp, by simp, fun hh => hh⟩
  | cons oc rest ih =>
    cases oc with
    | none => simp [validateClusterBasicAux] at h
    | some cluster =>
      simp only [validateClusterBasicAux] at h
      split at h
      · exact Except.noConfusion h
      rename_i h1
      split at h
      · exact Except.noConfusion h
      split at h
      · exact Except.noConfusion h
      split at h
      · exact Except.noConfusion h
      split at h
      · exact Except.noConfusion h
      split at h
      · exact Except.noConfusion h
      split at h
      · exact Except.noConfusion h
      split at h
      · exact Except.noConfusion h
      split at h
      · exact Except.noConfusion h
      split at h
      · exact Except.noConfusion h
      rename_i hlk
      obtain ⟨hm, hsome, hneid, hnd⟩ := ih h
      refine ⟨?_, ?_, ?_, ?_⟩
      · rw [hm]
        simp [entryOf, getClusterId]
      · intro oc hmem
        rcases List.mem_cons.mp hmem with rfl | hmem'
        · exact ⟨cluster, rfl⟩
        · exact hsome oc hmem'
      · intro oc hmem
        rcases List.mem_cons.mp hmem with rfl | hmem'
        · exact h1
        · exact hneid oc hmem'
      · intro hnd0
        refine hnd ?_
        simp only [keysOf_append, keysOf_cons, keysOf_nil]
        refine List.Nodup.append hnd0 (List.nodup_singleton _) ?_
        intro a ha hb
        rw [List.mem_singleton] at hb
        subst hb
        exact ((lookupStr_eq_none_iff cmap cluster.clusterId).mp hlk) ha

theorem validateClusterBasic_ok {p : String → Bool} {cs : List (Option MilvusCluster)}
    {m : List (String × Option MilvusCluster)}
    (h : validateClusterBasic p cs = .ok m) :
    m = cs.map entryOf ∧
    (∀ oc ∈ cs, ∃ c, oc = some c) ∧
    (∀ oc ∈ cs, getClusterId oc ≠ "") ∧
    (cs.map getClusterId).Nodup := by
  obtain ⟨hm, hsome, hne, hnd⟩ := validateClusterBasicAux_ok h
  rw [List.nil_append] at hm
  subst hm
  refine ⟨rfl, hsome, hne, ?_⟩
  have := hnd (by simp)
  simpa [keysOf_entries] using this

theorem validateClusterBasicAux_err {p : String → Bool} {cs : List (Option MilvusCluster)}
    {i expected : Nat} {firstID : String} {uriSet : List (String × String)}
    {cmap : List (String × Option MilvusCluster)} {e : ValidationError}
    (h : validateClusterBasicAux p cs i expected firstID uriSet cmap = .error e) :
    phaseOfError e = 1 := by
  induction cs generalizing i expected firstID uriSet cmap with
  | nil => simp [validateClusterBasicAux] at h
  | cons oc rest ih =>
    cases oc with
    | none =>
      simp only [validateClusterBasicAux] at h
      injection h with h
      subst h
      rfl
    | some cluster =>
      simp only [validateClusterBasicAux] at h
      split at h
      · injection h with h
        subst h
        rfl
      split at h
      · injection h with h
        subst h
        rfl
      split at h
      · injection h with h
        subst h
        rfl
      split at h
      · injection h with h
        subst h
        rfl
      split at h
      · injection h with h
        subst h
        rfl
      split at h
      · injection h with h
        subst h
        rfl
      split at h
      · injection h with h
        subst h
        rfl
      split at h
      · rename_i e' heq
        injection h with h
        subst h
        exact checkPchannelList_err heq
      split at h
      · injection h with h
        subst h
        rfl
      split at h
      · injection h with h
        subst h
        rfl
      exact ih h

theorem countStr_eq_count (l : List String) (s : String) : countStr l s = l.count s := by
  induction l with
  | nil => simp [countStr]
  | cons x rest ih =>
    rw [countStr, ih, List.count_cons]
    by_cases h : x = s
    · simp only [h, if_pos rfl, beq_self_eq_true, if_true]
      omega
    · have h' : (s == x) = false := by
        simp [beq_iff_eq]
        exact fun hh => h hh.symm
      simp [h, h']

theorem eioLoop_le {b : List String} {counts : String → Nat}
    (h : eioLoop b counts = true) : ∀ s, countStr b s ≤ counts s := by
  induction b generalizing counts with
  | nil => simp [countStr]
  | cons v rest ih =>
    rw [eioLoop] at h
    split at h
    · exact absurd h (by simp)
    rename_i hv
    intro s
    have hr := ih h s
    rw [countStr]
    by_cases hs : v = s
    · subst hs
      simp at hr ⊢
      omega
    · have hsv : ¬ (s = v) := fun hh => hs hh.symm
      rw [if_neg hsv] at hr
      rw [if_neg hs]
      omega

theorem eioLoop_of_le {b : List String} {counts : String → Nat}
    (h : ∀ s, countStr b s ≤ counts s) : eioLoop b counts = true := by
  induction b generalizing counts with
  | nil => rfl
  | cons v rest ih =>
    rw [eioLoop]
    have hv : ¬ (counts v = 0) := by
      have := h v
      rw [countStr, if_pos rfl] at this
      omega
    rw [if_neg hv]
    apply ih
    intro s
    have hcs := h s
    rw [countStr] at hcs
    by_cases hs : s = v
    · subst hs
      rw [if_pos rfl] at hcs ⊢
      omega
    · have hvs : ¬ (v = s) := fun hh => hs hh.symm
      rw [if_neg hvs] at hcs
      rw [if_neg hs]
      omega

theorem equalIgnoreOrder_iff_perm (a b : List String) :
    equalIgnoreOrder a b = true ↔ a.Perm b := by
  rw [equalIgnoreOrder]
  constructor
  · intro h
    split at h
    · rename_i hlen
      have hle := eioLoop_le h
      have hsub : b.Subperm a := by
        rw [List.subperm_ext_iff]
        intro x _
        have := hle x
        rw [countStr_eq_count, countStr_eq_count] at this
        exact this
      have hba : b.Perm a := hsub.perm_of_length_le (le_of_eq hlen)
      exact hba.symm
    · exact absurd h (by simp)
  · intro h
    rw [if_pos h.length_eq]
    apply eioLoop_of_le
    intro s
    have hc : countStr b s = countStr a s := by
      rw [countStr_eq_count, countStr_eq_count]
      exact (h.count_eq s).symm
    omega

theorem equalIgnoreOrder_perm_left {a a' : List String} (h : a.Perm a')
    (b : List String) : equalIgnoreOrder a b = equalIgnoreOrder a' b := by
  by_cases h1 : equalIgnoreOrder a b = true
  · have hab : a.Perm b := (equalIgnoreOrder_iff_perm a b).mp h1
    have : a'.Perm b := h.symm.trans hab
    rw [h1, (equalIgnoreOrder_iff_perm a' b).mpr this]
  · have h2 : ¬ equalIgnoreOrder a' b = true := by
      intro hh
      exact h1 ((equalIgnoreOrder_iff_perm a b).mpr
        (h.trans ((equalIgnoreOrder_iff_perm a' b).mp hh)))
    rw [Bool.not_eq_true] at h1 h2
    rw [h1, h2]

theorem validateRelevance_ok {cmap : List (String × Option MilvusCluster)}
    {lid : String} {lchans : List String}
    (h : validateRelevance cmap lid lchans = .ok ()) :
    ∃ oc, lookupStr cmap lid = some oc ∧
      equalIgnoreOrder lchans (getPchannels oc) = true := by
  simp only [validateRelevance] at h
  split at h
  · exact Except.noConfusion h
  rename_i oc hlk
  split at h
  · rename_i heio
    exact ⟨oc, hlk, heio⟩
  · exact Except.noConfusion h

theorem validateTopologyEdgeUniquenessAux_ok {cmap : List (String × Option MilvusCluster)}
    {ts : List (Option CrossClusterTopology)} {i : Nat} {es : List String}
    (h : validateTopologyEdgeUniquenessAux cmap ts i es = .ok ()) :
    (∀ t ∈ ts, getSourceClusterId t ∈ keysOf cmap ∧ getTargetClusterId t ∈ keysOf cmap) ∧
    (ts.map edgeKey).Nodup ∧ (∀ t ∈ ts, edgeKey t ∉ es) := by
  induction ts generalizing i es with
  | nil => exact ⟨by simp, by simp, by simp⟩
  | cons ot rest ih =>
    cases ot with
    | none => simp [validateTopologyEdgeUniquenessAux] at h
    | some t =>
      simp only [validateTopologyEdgeUniquenessAux] at h
      split at h
      · exact Except.noConfusion h
      rename_i hsrc
      split at h
      · exact Except.noConfusion h
      rename_i htgt
      split at h
      · exact Except.noConfusion h
      rename_i hdup
      obtain ⟨hend, hnd, hes⟩ := ih h
      refine ⟨?_, ?_, ?_⟩
      · intro t' ht'
        rcases List.mem_cons.mp ht' with rfl | hmem
        · rw [Bool.not_eq_false] at hsrc htgt
          exact ⟨(containsKey_iff _ _).mp hsrc, (containsKey_iff _ _).mp htgt⟩
        · exact hend t' hmem
      · rw [List.map_cons, List.nodup_cons]
        refine ⟨?_, hnd⟩
        intro hmem
        obtain ⟨t', ht', hkey⟩ := List.mem_map.mp hmem
        exact (hes t' ht') (by rw [hkey]; exact List.mem_cons_self _ _)
      · intro t' ht'
        rcases List.mem_cons.mp ht' with rfl | hmem
        · exact hdup
        · intro hmem'
          exact (hes t' hmem) (List.mem_cons_of_mem _ hmem')

theorem validateTopologyEdgeUniqueness_ok {cmap : List (String × Option MilvusCluster)}
    {ts : List (Option CrossClusterTopology)}
    (h : validateTopologyEdgeUniqueness cmap ts = .ok ()) :
    (∀ t ∈ ts, getSourceClusterId t ∈ keysOf cmap ∧ getTargetClusterId t ∈ keysOf cmap) ∧
    (ts.map edgeKey).Nodup := by
  rw [validateTopologyEdgeUniqueness] at h
  split at h
  · rename_i hts
    subst hts
    exact ⟨by simp, by simp⟩
  · obtain ⟨hend, hnd, _⟩ := validateTopologyEdgeUniquenessAux_ok h
    exact ⟨hend, hnd⟩

theorem outDeg_pos {ts : List (Option CrossClusterTopology)}
    {t : Option CrossClusterTopology} (hm : t ∈ ts) {c : String}
    (hc : getSourceClusterId t = c) : 1 ≤ outDeg ts c := by
  rw [outDeg]
  have hmem : t ∈ ts.filter (fun t => getSourceClusterId t == c) :=
    List.mem_filter.mpr ⟨hm, by simp [hc]⟩
  exact List.length_pos_of_mem hmem

theorem inDeg_pos {ts : List (Option CrossClusterTopology)}
    {t : Option CrossClusterTopology} (hm : t ∈ ts) {c : String}
    (hc : getTargetClusterId t = c) : 1 ≤ inDeg ts c := by
  rw [inDeg]
  have hmem : t ∈ ts.filter (fun t => getTargetClusterId t == c) :=
    List.mem_filter.mpr ⟨hm, by simp [hc]⟩
  exact List.length_pos_of_mem hmem

theorem outDeg_eq_length {ts : List (Option CrossClusterTopology)} {c : String}
    (h : ∀ t ∈ ts, getSourceClusterId t = c) : outDeg ts c = ts.length := by
  rw [outDeg]
  have hf : ts.filter (fun t => getSourceClusterId t == c) = ts :=
    List.filter_eq_self.mpr (fun t ht => by simp [h t ht])
  rw [hf]

theorem findCenterLoop_ok {ts : List (Option CrossClusterTopology)} {n : Nat}
    {ids : List String} {acc c : String}
    (h : findCenterLoop ts n ids acc = .ok c) :
    c ≠ "" ∧ (c = acc ∨ (c ∈ ids ∧ outDeg ts c = n - 1 ∧ inDeg ts c = 0)) := by
  induction ids generalizing acc with
  | nil =>
    rw [findCenterLoop] at h
    split at h
    · exact Except.noConfusion h
    · rename_i hacc
      injection h with h
      subst h
      exact ⟨hacc, Or.inl rfl⟩
  | cons d rest ih =>
    rw [findCenterLoop] at h
    split at h
    · rename_i hq
      split at h
      · exact Except.noConfusion h
      · obtain ⟨hne, hor⟩ := ih h
        refine ⟨hne, ?_⟩
        rcases hor with rfl | hmem
        · exact Or.inr ⟨List.mem_cons_self _ _, hq⟩
        · exact Or.inr ⟨List.mem_cons_of_mem _ hmem.1, hmem.2⟩
    · obtain ⟨hne, hor⟩ := ih h
      refine ⟨hne, ?_⟩
      rcases hor with rfl | hmem
      · exact Or.inl rfl
      · exact Or.inr ⟨List.mem_cons_of_mem _ hmem.1, hmem.2⟩

theorem findCenterLoop_err_multiple {ts : List (Option CrossClusterTopology)} {n : Nat}
    {ids : List String} {acc : String} (hnd : ids.Nodup)
    (h : findCenterLoop ts n ids acc = .error .multipleCenterNodes) :
    (acc ≠ "" ∧ ∃ c ∈ ids, outDeg ts c = n - 1 ∧ inDeg ts c = 0) ∨
    (∃ c1 ∈ ids, ∃ c2 ∈ ids, c1 ≠ c2 ∧
      (outDeg ts c1 = n - 1 ∧ inDeg ts c1 = 0) ∧
      (outDeg ts c2 = n - 1 ∧ inDeg ts c2 = 0)) := by
  induction ids generalizing acc with
  | nil =>
    rw [findCenterLoop] at h
    split at h
    · injection h with h
      simp at h
    · exact Except.noConfusion h
  | cons d rest ih =>
    rw [List.nodup_cons] at hnd
    rw [findCenterLoop] at h
    split at h
    · rename_i hq
      split at h
      · rename_i hacc
        exact Or.inl ⟨hacc, d, List.mem_cons_self _ _, hq⟩
      · have hres := ih hnd.2 h
        rcases hres with ⟨_, c, hc, hcq⟩ | ⟨c1, hc1, c2, hc2, hcne, hq1, hq2⟩
        · refine Or.inr ⟨d, List.mem_cons_self _ _, c, List.mem_cons_of_mem _ hc, ?_, hq, hcq⟩
          intro hdc
          rw [hdc] at hnd
          exact hnd.1 hc
        · exact Or.inr ⟨c1, List.mem_cons_of_mem _ hc1, c2, List.mem_cons_of_mem _ hc2,
            hcne, hq1, hq2⟩
    · have hres := ih hnd.2 h
      rcases hres with ⟨hacc, c, hc, hcq⟩ | ⟨c1, hc1, c2, hc2, hcne, hq1, hq2⟩
      · exact Or.inl ⟨hacc, c, List.mem_cons_of_mem _ hc, hcq⟩
      · exact Or.inr ⟨c1, List.mem_cons_of_mem _ hc1, c2, List.mem_cons_of_mem _ hc2,
          hcne, hq1, hq2⟩

theorem checkLeaves_ok {ts : List (Option CrossClusterTopology)} {center : String}
    {ids : List String} (h : checkLeaves ts center ids = .ok ()) :
    ∀ d ∈ ids, d ≠ center → inDeg ts d = 1 ∧ outDeg ts d = 0 := by
  induction ids with
  | nil => simp
  | cons d rest ih =>
    rw [checkLeaves] at h
    split at h
    · rename_i hdc
      intro x hx hxc
      rcases List.mem_cons.mp hx with rfl | hx'
      · exact absurd hdc hxc
      · exact ih h x hx' hxc
    · rename_i hdc
      split at h
      · exact Except.noConfusion h
      · rename_i hdeg
        push_neg at hdeg
        intro x hx hxc
        rcases List.mem_cons.mp hx with rfl | hx'
        · exact hdeg
        · exact ih h x hx' hxc

theorem checkLeaves_ne_multiple {ts : List (Option CrossClusterTopology)}
    {center : String} {ids : List String} :
    checkLeaves ts center ids ≠ .error .multipleCenterNodes := by
  induction ids with
  | nil => simp [checkLeaves]
  | cons d rest ih =>
    rw [checkLeaves]
    split
    · exact ih
    · split
      · intro hc
        injection hc with hc
        simp at hc
      · exact ih

theorem validateTopologyTypeConstraint_ok {cmap : List (String × Option MilvusCluster)}
    {ts : List (Option CrossClusterTopology)}
    (h : validateTopologyTypeConstraint cmap ts = .ok ()) (hne : ts ≠ []) :
    ∃ c ∈ keysOf cmap,
      outDeg ts c = cmap.length - 1 ∧ inDeg ts c = 0 ∧
      ∀ d ∈ keysOf cmap, d ≠ c → inDeg ts d = 1 ∧ outDeg ts d = 0 := by
  rw [validateTopologyTypeConstraint, if_neg hne] at h
  split at h
  · exact Except.noConfusion h
  · rename_i center hfc
    obtain ⟨hne', hor⟩ := findCenterLoop_ok hfc
    rcases hor with rfl | ⟨hmem, hq1, hq2⟩
    · exact absurd rfl hne'
    · exact ⟨center, hmem, hq1, hq2, checkLeaves_ok h⟩

theorem validateTopologyTypeConstraint_err_multiple
    {cmap : List (String × Option MilvusCluster)}
    {ts : List (Option CrossClusterTopology)} (hnd : (keysOf cmap).Nodup)
    (h : validateTopologyTypeConstraint cmap ts = .error .multipleCenterNodes) :
    ∃ c1 ∈ keysOf cmap, ∃ c2 ∈ keysOf cmap, c1 ≠ c2 ∧
      (outDeg ts c1 = cmap.length - 1 ∧ inDeg ts c1 = 0) ∧
      (outDeg ts c2 = cmap.length - 1 ∧ inDeg ts c2 = 0) := by
  rw [validateTopologyTypeConstraint] at h
  split at h
  · exact Except.noConfusion h
  · split at h
    · rename_i e hfc
      injection h with h
      subst h
      have := findCenterLoop_err_multiple hnd hfc
      rcases this with ⟨hacc, _⟩ | hr
      · exact absurd rfl hacc
      · exact hr
    · exact absurd h checkLeaves_ne_multiple

theorem validateClusterConsistency_ok {cc oc : Option MilvusCluster} {flag f : Bool}
    (h : validateClusterConsistency cc oc flag = (.ok (), f)) :
    getPchannels cc <+: getPchannels oc ∧
    getUri (getConnectionParam cc) = getUri (getConnectionParam oc) ∧
    getToken (getConnectionParam cc) = getToken (getConnectionParam oc) ∧
    f = (if (getPchannels cc).length < (getPchannels oc).length then true else flag) := by
  simp only [validateClusterConsistency] at h
  split at h
  · exact absurd (congrArg Prod.fst h) (by simp)
  rename_i hlen
  split at h
  · exact absurd (congrArg Prod.fst h) (by simp)
  rename_i hpre
  split at h
  · exact absurd (congrArg Prod.fst h) (by simp)
  rename_i huri
  split at h
  · exact absurd (congrArg Prod.fst h) (by simp)
  rename_i htok
  rw [Prod.mk.injEq] at h
  refine ⟨?_, not_not.mp huri, not_not.mp htok, h.2.symm⟩
  rw [List.prefix_iff_eq_take]
  exact (not_not.mp hpre).symm

theorem validateClusterConsistency_snd_true (cc oc : Option MilvusCluster) :
    (validateClusterConsistency cc oc true).2 = true := by
  simp only [validateClusterConsistency]
  split
  · rfl
  split
  · rfl
  split
  · simp
  split
  · simp
  · simp

theorem consistencyLoop_snd_true (m : List (String × Option MilvusCluster))
    (cs : List (Option MilvusCluster)) : (consistencyLoop m cs true).2 = true := by
  induction cs with
  | nil => rfl
  | cons oc rest ih =>
    rw [consistencyLoop]
    cases hlk : lookupStr m (getClusterId oc) with
    | none => exact ih
    | some cc =>
      cases hvc : validateClusterConsistency cc oc true with
      | mk r f =>
        have hf : f = true := by
          have h2 := validateClusterConsistency_snd_true cc oc
          rw [hvc] at h2
          exact h2
        subst hf
        cases r with
        | error e => simp [hlk, hvc]
        | ok u =>
          simp only [hlk, hvc]
          exact ih

theorem consistencyLoop_ok_forall {m : List (String × Option MilvusCluster)}
    {cs : List (Option MilvusCluster)} {flag f : Bool}
    (h : consistencyLoop m cs flag = (.ok (), f)) :
    ∀ oc ∈ cs, ∀ cc, lookupStr m (getClusterId oc) = some cc →
      getPchannels cc <+: getPchannels oc ∧
      getUri (getConnectionParam cc) = getUri (getConnectionParam oc) ∧
      getToken (getConnectionParam cc) = getToken (getConnectionParam oc) ∧
      ((getPchannels cc).length < (getPchannels oc).length → f = true) := by
  induction cs generalizing flag with
  | nil => simp
  | cons oc0 rest ih =>
    rw [consistencyLoop] at h
    split at h
    · rename_i cc0 hlk
      split at h
      · exact absurd (congrArg Prod.fst h) (by simp)
      · rename_i u flag' hvc
        have hvc' : validateClusterConsistency cc0 oc0 flag = (.ok (), flag') := by
          cases u
          exact hvc
        obtain ⟨hpre, huri, htok, hf0⟩ := validateClusterConsistency_ok hvc'
        intro oc hmem cc hcc
        rcases List.mem_cons.mp hmem with rfl | hmem'
        · rw [hlk] at hcc
          injection hcc with hcc
          subst hcc
          refine ⟨hpre, huri, htok, ?_⟩
          intro hlt
          rw [if_pos hlt] at hf0
          subst hf0
          have h2 := consistencyLoop_snd_true m rest
          rw [h] at h2
          exact h2
        · exact ih h oc hmem' cc hcc
    · rename_i hlk
      intro oc hmem cc hcc
      rcases List.mem_cons.mp hmem with rfl | hmem'
      · rw [hlk] at hcc
        exact Option.noConfusion hcc
      · exact ih h oc hmem' cc hcc

theorem consistencyLoop_growth_of_flag {m : List (String × Option MilvusCluster)}
    {cs : List (Option MilvusCluster)} {flag f : Bool}
    (h : consistencyLoop m cs flag = (.ok (), f)) (hf : f = true) (hflag : flag = false) :
    ∃ oc ∈ cs, ∃ cc, lookupStr m (getClusterId oc) = some cc ∧
      (getPchannels cc).length < (getPchannels oc).length := by
  induction cs generalizing flag with
  | nil =>
    rw [consistencyLoop] at h
    have h2 := congrArg Prod.snd h
    simp only at h2
    rw [hflag] at h2
    rw [hf] at h2
    exact Bool.noConfusion h2
  | cons oc0 rest ih =>
    rw [consistencyLoop] at h
    split at h
    · rename_i cc0 hlk
      split at h
      · exact absurd (congrArg Prod.fst h) (by simp)
      · rename_i u flag' hvc
        have hvc' : validateClusterConsistency cc0 oc0 flag = (.ok (), flag') := by
          cases u
          exact hvc
        obtain ⟨_, _, _, hf0⟩ := validateClusterConsistency_ok hvc'
        by_cases hf' : flag' = true
        · rw [hflag] at hf0
          by_cases hlt : (getPchannels cc0).length < (getPchannels oc0).length
          · exact ⟨oc0, List.mem_cons_self _ _, cc0, hlk, hlt⟩
          · rw [if_neg hlt] at hf0
            rw [hf0] at hf'
            exact Bool.noConfusion hf'
        · rw [Bool.not_eq_true] at hf'
          obtain ⟨oc, hmem, cc, hcc, hlt⟩ := ih h hf'
          exact ⟨oc, List.mem_cons_of_mem _ hmem, cc, hcc, hlt⟩
    · rename_i hlk
      obtain ⟨oc, hmem, cc, hcc, hlt⟩ := ih h hflag
      exact ⟨oc, List.mem_cons_of_mem _ hmem, cc, hcc, hlt⟩

theorem validateClusterConsistency_unchanged {cc oc : Option MilvusCluster} (flag : Bool)
    (hp : getPchannels cc = getPchannels oc)
    (hu : getUri (getConnectionParam cc) = getUri (getConnectionParam oc))
    (ht : getToken (getConnectionParam cc) = getToken (getConnectionParam oc)) :
    validateClusterConsistency cc oc flag = (.ok (), flag) := by
  simp only [validateClusterConsistency, hp, hu, ht]
  simp [List.take_length]

theorem consistencyLoop_unchanged {m : List (String × Option MilvusCluster)}
    {cs : List (Option MilvusCluster)} (flag : Bool)
    (hall : ∀ oc ∈ cs, ∀ cc, lookupStr m (getClusterId oc) = some cc →
      getPchannels cc = getPchannels oc ∧
      getUri (getConnectionParam cc) = getUri (getConnectionParam oc) ∧
      getToken (getConnectionParam cc) = getToken (getConnectionParam oc)) :
    consistencyLoop m cs flag = (.ok (), flag) := by
  induction cs with
  | nil => rfl
  | cons oc rest ih =>
    rw [consistencyLoop]
    cases hlk : lookupStr m (getClusterId oc) with
    | none =>
      simp only [hlk]
      exact ih (fun oc' h' cc hcc => hall oc' (List.mem_cons_of_mem _ h') cc hcc)
    | some cc =>
      obtain ⟨hp, hu, ht⟩ := hall oc (List.mem_cons_self _ _) cc hlk
      simp only [hlk, validateClusterConsistency_unchanged flag hp hu ht]
      exact ih (fun oc' h' cc' hcc => hall oc' (List.mem_cons_of_mem _ h') cc' hcc)

theorem checkClusterKeys_ok {cm : List (String × Option MilvusCluster)} {ks : List String}
    (h : checkClusterKeys cm ks = .ok ()) : ∀ k ∈ ks, k ∈ keysOf cm := by
  induction ks with
  | nil => simp
  | cons k rest ih =>
    rw [checkClusterKeys] at h
    split at h
    · exact Except.noConfusion h
    · rename_i hck
      rw [Bool.not_eq_false] at hck
      intro x hx
      rcases List.mem_cons.mp hx with rfl | hx'
      · exact (containsKey_iff _ _).mp hck
      · exact ih h x hx'

theorem checkIncomingEdges_ok {es : List String} {ts : List (Option CrossClusterTopology)}
    (h : checkIncomingEdges es ts = .ok ()) : ∀ t ∈ ts, edgeKey t ∈ es := by
  induction ts with
  | nil => simp
  | cons t rest ih =>
    rw [checkIncomingEdges] at h
    split at h
    · rename_i hin
      intro x hx
      rcases List.mem_cons.mp hx with rfl | hx'
      · exact hin
      · exact ih h x hx'
    · exact Except.noConfusion h

theorem validatePChannelIncreasingConstraints_ok
    {curMap cm : List (String × Option MilvusCluster)}
    {curT incT : List (Option CrossClusterTopology)}
    (h : validatePChannelIncreasingConstraints curMap cm curT incT = .ok ()) :
    curMap.length = cm.length ∧ (∀ k ∈ keysOf curMap, k ∈ keysOf cm) ∧
    curT.length = incT.length ∧ (∀ t ∈ incT, edgeKey t ∈ curT.map edgeKey) := by
  simp only [validatePChannelIncreasingConstraints] at h
  split at h
  · exact Except.noConfusion h
  rename_i hlen
  split at h
  · exact Except.noConfusion h
  rename_i u hkeys
  split at h
  · exact Except.noConfusion h
  rename_i htlen
  exact ⟨not_not.mp hlen, checkClusterKeys_ok hkeys, not_not.mp htlen,
    checkIncomingEdges_ok h⟩

theorem validateClusterConsistency_err_phase {cc oc : Option MilvusCluster}
    {flag f : Bool} {e : ValidationError}
    (h : validateClusterConsistency cc oc flag = (.error e, f)) : phaseOfError e = 5 := by
  simp only [validateClusterConsistency] at h
  split at h
  · rw [Prod.mk.injEq] at h
    obtain ⟨h1, -⟩ := h
    injection h1 with h1
    subst h1
    rfl
  split at h
  · rw [Prod.mk.injEq] at h
    obtain ⟨h1, -⟩ := h
    injection h1 with h1
    subst h1
    rfl
  split at h
  · rw [Prod.mk.injEq] at h
    obtain ⟨h1, -⟩ := h
    injection h1 with h1
    subst h1
    rfl
  split at h
  · rw [Prod.mk.injEq] at h
    obtain ⟨h1, -⟩ := h
    injection h1 with h1
    subst h1
    rfl
  · rw [Prod.mk.injEq] at h
    exact Except.noConfusion h.1

theorem consistencyLoop_err_phase {m : List (String × Option MilvusCluster)}
    {cs : List (Option MilvusCluster)} {flag f : Bool} {e : ValidationError}
    (h : consistencyLoop m cs flag = (.error e, f)) : phaseOfError e = 5 := by
  induction cs generalizing flag with
  | nil =>
    rw [consistencyLoop, Prod.mk.injEq] at h
    exact Except.noConfusion h.1
  | cons oc0 rest ih =>
    rw [consistencyLoop] at h
    split at h
    · rename_i cc0 hlk
      split at h
      · rename_i e' flag' hvc
        rw [Prod.mk.injEq] at h
        obtain ⟨h1, -⟩ := h
        injection h1 with h1
        subst h1
        exact validateClusterConsistency_err_phase hvc
      · exact ih h
    · exact ih h

theorem checkClusterKeys_err {cm : List (String × Option MilvusCluster)}
    {ks : List String} {e : ValidationError}
    (h : checkClusterKeys cm ks = .error e) : phaseOfError e = 6 := by
  induction ks with
  | nil => simp [checkClusterKeys] at h
  | cons k rest ih =>
    rw [checkClusterKeys] at h
    split at h
    · injection h with h
      subst h
      rfl
    · exact ih h

theorem checkIncomingEdges_err {es : List String}
    {ts : List (Option CrossClusterTopology)} {e : ValidationError}
    (h : checkIncomingEdges es ts = .error e) : phaseOfError e = 6 := by
  induction ts with
  | nil => simp [checkIncomingEdges] at h
  | cons t rest ih =>
    rw [checkIncomingEdges] at h
    split at h
    · exact ih h
    · injection h with h
      subst h
      rfl

theorem validatePChannelIncreasingConstraints_err
    {curMap cm : List (String × Option MilvusCluster)}
    {curT incT : List (Option CrossClusterTopology)} {e : ValidationError}
    (h : validatePChannelIncreasingConstraints curMap cm curT incT = .error e) :
    phaseOfError e = 6 := by
  simp only [validatePChannelIncreasingConstraints] at h
  split at h
  · injection h with h
    subst h
    rfl
  split at h
  · rename_i e' hkeys
    injection h with h
    subst h
    exact checkClusterKeys_err hkeys
  split at h
  · injection h with h
    subst h
    rfl
  · exact checkIncomingEdges_err h

theorem validateConfigComparison_err_phase {ic cc : Option ReplicateConfiguration}
    {m : List (String × Option MilvusCluster)} {flag f : Bool} {e : ValidationError}
    (h : validateConfigComparison ic cc m flag = (.error e, f)) : 5 ≤ phaseOfError e := by
  simp only [validateConfigComparison] at h
  split at h
  · rename_i e' flag' hloop
    rw [Prod.mk.injEq] at h
    obtain ⟨h1, -⟩ := h
    injection h1 with h1
    subst h1
    exact le_of_eq (consistencyLoop_err_phase hloop).symm
  · rename_i u flag' hloop
    split at h
    · rw [Prod.mk.injEq] at h
      obtain ⟨h1, -⟩ := h
      have h6 := validatePChannelIncreasingConstraints_err h1
      omega
    · rw [Prod.mk.injEq] at h
      exact Except.noConfusion h.1

theorem runValidate_ok_parts {p : String → Bool} {cfg : ReplicateConfiguration}
    {cur : Option ReplicateConfiguration} {lid : String} {lchans : List String}
    (h : (runValidate p (some cfg) cur lid lchans).1 = .ok ()) :
    cfg.clusters ≠ [] ∧
    validateClusterBasic p cfg.clusters = .ok (cfg.clusters.map entryOf) ∧
    validateRelevance (cfg.clusters.map entryOf) lid lchans = .ok () ∧
    validateTopologyEdgeUniqueness (cfg.clusters.map entryOf) cfg.crossClusterTopology = .ok () ∧
    validateTopologyTypeConstraint (cfg.clusters.map entryOf) cfg.crossClusterTopology = .ok () := by
  simp only [runValidate] at h
  split at h
  · simp at h
  rename_i hne
  split at h
  · simp at h
  rename_i cmap hb
  split at h
  · simp at h
  rename_i u2 hr
  split at h
  · simp at h
  rename_i u3 hu
  split at h
  · simp at h
  rename_i u4 hs
  obtain ⟨hm, -, -, -⟩ := validateClusterBasic_ok hb
  subst hm
  cases u2
  cases u3
  cases u4
  exact ⟨hne, hb, hr, hu, hs⟩

theorem runValidate_some_eq {p : String → Bool} {cfg ccfg : ReplicateConfiguration}
    {lid : String} {lchans : List String} {m : List (String × Option MilvusCluster)}
    (hne : cfg.clusters ≠ [])
    (hb : validateClusterBasic p cfg.clusters = .ok m)
    (hr : validateRelevance m lid lchans = .ok ())
    (hu : validateTopologyEdgeUniqueness m cfg.crossClusterTopology = .ok ())
    (hs : validateTopologyTypeConstraint m cfg.crossClusterTopology = .ok ()) :
    runValidate p (some cfg) (some ccfg) lid lchans
      = validateConfigComparison (some cfg) (some ccfg) m false := by
  simp only [runValidate, if_neg hne, hb, hr, hu, hs]

theorem runValidate_none_ok {p : String → Bool} {cfg : ReplicateConfiguration}
    {lid : String} {lchans : List String} {m : List (String × Option MilvusCluster)}
    (hne : cfg.clusters ≠ [])
    (hb : validateClusterBasic p cfg.clusters = .ok m)
    (hr : validateRelevance m lid lchans = .ok ())
    (hu : validateTopologyEdgeUniqueness m cfg.crossClusterTopology = .ok ())
    (hs : validateTopologyTypeConstraint m cfg.crossClusterTopology = .ok ()) :
    runValidate p (some cfg) none lid lchans = (.ok (), false) := by
  simp only [runValidate, if_neg hne, hb, hr, hu, hs]

theorem runValidate_err_true_phase {p : String → Bool}
    {inc cur : Option ReplicateConfiguration} {lid : String} {lchans : List String}
    {e : ValidationError}
    (h : runValidate p inc cur lid lchans = (.error e, true)) : 5 ≤ phaseOfError e := by
  cases inc with
  | none =>
    simp only [runValidate] at h
    exact absurd (congrArg Prod.snd h) (by simp)
  | some cfg =>
    simp only [runValidate] at h
    split at h
    · exact absurd (congrArg Prod.snd h) (by simp)
    split at h
    · exact absurd (congrArg Prod.snd h) (by simp)
    split at h
    · exact absurd (congrArg Prod.snd h) (by simp)
    split at h
    · exact absurd (congrArg Prod.snd h) (by simp)
    split at h
    · exact absurd (congrArg Prod.snd h) (by simp)
    split at h
    · exact absurd (congrArg Prod.snd h) (by simp)
    · exact validateConfigComparison_err_phase h

theorem mem_of_subset_len {l₁ l₂ : List String} (hsub : ∀ x ∈ l₁, x ∈ l₂)
    (hnd : l₁.Nodup) (hlen : l₂.length ≤ l₁.length) : ∀ x ∈ l₂, x ∈ l₁ := by
  have hfs : l₁.toFinset ⊆ l₂.toFinset := by
    intro x hx
    rw [List.mem_toFinset] at hx ⊢
    exact hsub x hx
  have hc1 : l₁.toFinset.card = l₁.length := List.toFinset_card_of_nodup hnd
  have hc2 : l₂.toFinset.card ≤ l₂.length := l₂.toFinset_card_le
  have heq : l₁.toFinset = l₂.toFinset :=
    Finset.eq_of_subset_of_card_le hfs (by omega)
  intro x hx
  have : x ∈ l₂.toFinset := List.mem_toFinset.mpr hx
  rw [← heq, List.mem_toFinset] at this
  exact this

theorem sameMembers_of_iff {α : Type} [DecidableEq α] {a b : List α}
    (h : ∀ x, x ∈ a ↔ x ∈ b) : sameMembers a b = true := by
  rw [sameMembers, Bool.and_eq_true, List.all_eq_true, List.all_eq_true]
  constructor
  · intro x hx
    rw [decide_eq_true_eq]
    exact (h x).mp hx
  · intro x hx
    rw [decide_eq_true_eq]
    exact (h x).mpr hx

theorem targets_nodup_of_keys_nodup {ts : List (Option CrossClusterTopology)}
    {c : String} (hnd : (ts.map edgeKey).Nodup) :
    ((ts.filter (fun t => getSourceClusterId t == c)).map getTargetClusterId).Nodup := by
  have hsl : List.Sublist (ts.filter (fun t => getSourceClusterId t == c)) ts :=
    List.filter_sublist ts
  have hsub : ((ts.filter (fun t => getSourceClusterId t == c)).map edgeKey).Nodup :=
    List.Nodup.sublist (hsl.map edgeKey) hnd
  have hmapeq : (ts.filter (fun t => getSourceClusterId t == c)).map edgeKey
      = ((ts.filter (fun t => getSourceClusterId t == c)).map getTargetClusterId).map
          (fun x => c ++ "->" ++ x) := by
    rw [List.map_map]
    apply List.map_congr_left
    intro t ht
    have hsrc : getSourceClusterId t = c := by
      have := (List.mem_filter.mp ht).2
      rwa [beq_iff_eq] at this
    simp only [Function.comp_apply, edgeKey, hsrc]
  rw [hmapeq] at hsub
  exact hsub.of_map _

theorem at_most_one_center {cmap : List (String × Option MilvusCluster)}
    {ts : List (Option CrossClusterTopology)} (hnd : (keysOf cmap).Nodup)
    (hend : ∀ t ∈ ts, getSourceClusterId t ∈ keysOf cmap ∧ getTargetClusterId t ∈ keysOf cmap)
    (hknd : (ts.map edgeKey).Nodup)
    {c1 c2 : String} (h1 : c1 ∈ keysOf cmap) (h2 : c2 ∈ keysOf cmap)
    (hq1 : outDeg ts c1 = cmap.length - 1 ∧ inDeg ts c1 = 0)
    (hq2 : outDeg ts c2 = cmap.length - 1 ∧ inDeg ts c2 = 0) : c1 = c2 := by
  by_contra hne
  have hTnd : ((ts.filter (fun t => getSourceClusterId t == c1)).map getTargetClusterId).Nodup :=
    targets_nodup_of_keys_nodup hknd
  have hTmem : ∀ x ∈ (ts.filter (fun t => getSourceClusterId t == c1)).map getTargetClusterId,
      x ∈ keysOf cmap ∧ x ≠ c1 ∧ x ≠ c2 := by
    intro x hx
    obtain ⟨t, ht, rfl⟩ := List.mem_map.mp hx
    have htts : t ∈ ts := List.mem_of_mem_filter ht
    refine ⟨(hend t htts).2, ?_, ?_⟩
    · intro hxc
      have hpos := inDeg_pos htts hxc
      rw [hq1.2] at hpos
      omega
    · intro hxc
      have hpos := inDeg_pos htts hxc
      rw [hq2.2] at hpos
      omega
  have hsub : ((ts.filter (fun t => getSourceClusterId t == c1)).map getTargetClusterId).toFinset
      ⊆ ((keysOf cmap).toFinset \ {c1, c2}) := by
    intro x hx
    rw [List.mem_toFinset] at hx
    obtain ⟨hk, hx1, hx2⟩ := hTmem x hx
    rw [Finset.mem_sdiff]
    refine ⟨List.mem_toFinset.mpr hk, ?_⟩
    simp [hx1, hx2]
  have hcardT :
      ((ts.filter (fun t => getSourceClusterId t == c1)).map getTargetClusterId).toFinset.card
        = cmap.length - 1 := by
    rw [List.toFinset_card_of_nodup hTnd, List.length_map]
    exact hq1.1
  have hcardK : (keysOf cmap).toFinset.card = cmap.length := by
    rw [List.toFinset_card_of_nodup hnd]
    simp [keysOf]
  have hc12 : ({c1, c2} : Finset String) ⊆ (keysOf cmap).toFinset := by
    intro x hx
    rw [Finset.mem_insert, Finset.mem_singleton] at hx
    rcases hx with rfl | rfl
    · exact List.mem_toFinset.mpr h1
    · exact List.mem_toFinset.mpr h2
  have hcard12 : ({c1, c2} : Finset String).card = 2 := by
    rw [Finset.card_insert_of_not_mem (by simp [hne]), Finset.card_singleton]
  have hsd : ((keysOf cmap).toFinset \ {c1, c2}).card = cmap.length - 2 := by
    rw [Finset.card_sdiff hc12, hcardK, hcard12]
  have hle := Finset.card_le_card hsub
  rw [hcardT, hsd] at hle
  have h2le : 2 ≤ cmap.length := by
    have hcl := Finset.card_le_card hc12
    rw [hcardK, hcard12] at hcl
    exact hcl
  omega

/-- Claim C1: whenever Validate succeeds and the incoming cross-cluster
topology list is non-empty, there is exactly one declared cluster C such that
every edge has source C and no edge has target C; every other declared
cluster is the target of exactly one edge and the source of none, and the
number of edges equals the number of clusters minus one. -/
theorem C1_star_uniqueness (p : String → Bool) (cfg : ReplicateConfiguration)
    (cur : Option ReplicateConfiguration) (lid : String) (lchans : List String)
    (hok : Validate p (some cfg) cur lid lchans = .ok ())
    (hne : cfg.crossClusterTopology ≠ []) :
    ∃ C, C ∈ cfg.clusters.map getClusterId ∧
      (∀ t ∈ cfg.crossClusterTopology,
        getSourceClusterId t = C ∧ getTargetClusterId t ≠ C) ∧
      (∀ C', C' ∈ cfg.clusters.map getClusterId →
        (∀ t ∈ cfg.crossClusterTopology, getSourceClusterId t = C') → C' = C) ∧
      (∀ D ∈ cfg.clusters.map getClusterId, D ≠ C →
        inDeg cfg.crossClusterTopology D = 1 ∧ outDeg cfg.crossClusterTopology D = 0) ∧
      cfg.crossClusterTopology.length = cfg.clusters.length - 1 := by
  obtain ⟨hcne, hb, hr, hu, hs⟩ := runValidate_ok_parts hok
  obtain ⟨hend, hknd⟩ := validateTopologyEdgeUniqueness_ok hu
  obtain ⟨c, hcmem, hq1, hq2, hleaves⟩ := validateTopologyTypeConstraint_ok hs hne
  rw [keysOf_entries] at hcmem hleaves
  rw [List.length_map] at hq1
  have hend' : ∀ t ∈ cfg.crossClusterTopology,
      getSourceClusterId t ∈ cfg.clusters.map getClusterId ∧
      getTargetClusterId t ∈ cfg.clusters.map getClusterId := by
    intro t ht
    have := hend t ht
    rwa [keysOf_entries] at this
  have hall : ∀ t ∈ cfg.crossClusterTopology, getSourceClusterId t = c := by
    intro t ht
    by_contra hsrc
    have hleaf := hleaves _ (hend' t ht).1 hsrc
    have hpos := outDeg_pos ht rfl
    rw [hleaf.2] at hpos
    omega
  have htgt : ∀ t ∈ cfg.crossClusterTopology, getTargetClusterId t ≠ c := by
    intro t ht hc
    have hpos := inDeg_pos ht hc
    rw [hq2] at hpos
    omega
  refine ⟨c, hcmem, fun t ht => ⟨hall t ht, htgt t ht⟩, ?_, hleaves, ?_⟩
  · intro C' _ hallC'
    obtain ⟨t0, ht0⟩ := List.exists_mem_of_ne_nil _ hne
    rw [← hallC' t0 ht0, hall t0 ht0]
  · rw [outDeg_eq_length hall] at hq1
    exact hq1

/-- Witness for C1 at the concrete three-cluster star configuration. -/
theorem C1_star_uniqueness_witness :
    Validate parseURIAlways (some starCfg) none "c1" ["ch"] = .ok () ∧
    starCfg.crossClusterTopology ≠ [] ∧
    (∃ C, C ∈ starCfg.clusters.map getClusterId ∧
      (∀ t ∈ starCfg.crossClusterTopology,
        getSourceClusterId t = C ∧ getTargetClusterId t ≠ C) ∧
      (∀ C', C' ∈ starCfg.clusters.map getClusterId →
        (∀ t ∈ starCfg.crossClusterTopology, getSourceClusterId t = C') → C' = C) ∧
      (∀ D ∈ starCfg.clusters.map getClusterId, D ≠ C →
        inDeg starCfg.crossClusterTopology D = 1 ∧
        outDeg starCfg.crossClusterTopology D = 0) ∧
      starCfg.crossClusterTopology.length = starCfg.clusters.length - 1) :=
  ⟨by decide, by decide,
    C1_star_uniqueness parseURIAlways starCfg none "c1" ["ch"] (by decide) (by decide)⟩

/-- Claim C7: the validation phases run in the fixed order cluster-basic,
relevance, topology-edge-uniqueness, star-shape, transition, and the first
violation aborts the call: Validate returns exactly the error of the first
failing phase. -/
theorem C7_fail_fast (p : String → Bool) (cfg : ReplicateConfiguration)
    (cur : Option ReplicateConfiguration) (lid : String) (lchans : List String)
    (hne : cfg.clusters ≠ []) :
    (∀ e, validateClusterBasic p cfg.clusters = .error e →
      Validate p (some cfg) cur lid lchans = .error e) ∧
    (∀ m e, validateClusterBasic p cfg.clusters = .ok m →
      validateRelevance m lid lchans = .error e →
      Validate p (some cfg) cur lid lchans = .error e) ∧
    (∀ m e, validateClusterBasic p cfg.clusters = .ok m →
      validateRelevance m lid lchans = .ok () →
      validateTopologyEdgeUniqueness m cfg.crossClusterTopology = .error e →
      Validate p (some cfg) cur lid lchans = .error e) ∧
    (∀ m e, validateClusterBasic p cfg.clusters = .ok m →
      validateRelevance m lid lchans = .ok () →
      validateTopologyEdgeUniqueness m cfg.crossClusterTopology = .ok () →
      validateTopologyTypeConstraint m cfg.crossClusterTopology = .error e →
      Validate p (some cfg) cur lid lchans = .error e) ∧
    (∀ m e b ccfg, cur = some ccfg →
      validateClusterBasic p cfg.clusters = .ok m →
      validateRelevance m lid lchans = .ok () →
      validateTopologyEdgeUniqueness m cfg.crossClusterTopology = .ok () →
      validateTopologyTypeConstraint m cfg.crossClusterTopology = .ok () →
      validateConfigComparison (some cfg) (some ccfg) m false = (.error e, b) →
      Validate p (some cfg) cur lid lchans = .error e) := by
  refine ⟨?_, ?_, ?_, ?_, ?_⟩
  · intro e hb
    simp [Validate, runValidate, if_neg hne, hb]
  · intro m e hb hr
    simp [Validate, runValidate, if_neg hne, hb, hr]
  · intro m e hb hr hu
    simp [Validate, runValidate, if_neg hne, hb, hr, hu]
  · intro m e hb hr hu hs
    simp [Validate, runValidate, if_neg hne, hb, hr, hu, hs]
  · intro m e b ccfg hcur hb hr hu hs hcmp
    subst hcur
    rw [Validate, runValidate_some_eq hne hb hr hu hs, hcmp]

/-- Witness for C7: with a cluster whose id is empty, cluster-basic fails and
Validate returns exactly that error. -/
theorem C7_fail_fast_witness :
    emptyIdCfg.clusters ≠ [] ∧
    validateClusterBasic parseURIAlways emptyIdCfg.clusters = .error (.emptyClusterID 0) ∧
    Validate parseURIAlways (some emptyIdCfg) none "x" ["p"] = .error (.emptyClusterID 0) :=
  ⟨by decide, by decide,
    (C7_fail_fast parseURIAlways emptyIdCfg none "x" ["p"] (by decide)).1
      (.emptyClusterID 0) (by decide)⟩

/-- Claim C10: with an empty local cluster id, Validate fails for every
incoming and current configuration, returning the relevance "must be
included" error or an earlier one. -/
theorem C10_empty_local_id (p : String → Bool) (inc cur : Option ReplicateConfiguration)
    (lchans : List String) :
    ∃ e, (runValidate p inc cur "" lchans).1 = .error e ∧
      (e = .notIncluded "" ∨ phaseOfError e ≤ 1) := by
  cases inc with
  | none => exact ⟨.configNil, rfl, Or.inr (by decide)⟩
  | some cfg =>
    by_cases hne : cfg.clusters = []
    · refine ⟨.clustersEmpty, ?_, Or.inr (by decide)⟩
      simp [runValidate, hne]
    · cases hb : validateClusterBasic p cfg.clusters with
      | error e =>
        refine ⟨e, ?_, Or.inr ?_⟩
        · simp [runValidate, hne, hb]
        · rw [validateClusterBasic] at hb
          exact le_of_eq (validateClusterBasicAux_err hb)
      | ok m =>
        obtain ⟨hm, -, hneid, -⟩ := validateClusterBasic_ok hb
        subst hm
        have hlk : lookupStr (cfg.clusters.map entryOf) "" = none := by
          rw [lookupStr_eq_none_iff, keysOf_entries]
          intro hmem
          obtain ⟨oc, hoc, hid⟩ := List.mem_map.mp hmem
          exact hneid oc hoc hid
        refine ⟨.notIncluded "", ?_, Or.inl rfl⟩
        have hrel : validateRelevance (cfg.clusters.map entryOf) "" lchans
            = .error (.notIncluded "") := by
          simp [validateRelevance, hlk]
        simp [runValidate, hne, hb, hrel]

/-- Claim C6: the relevance check compares the local pchannels with the
declared ones as multisets: on success the local cluster is declared with a
pchannel list of equal length and equal element counts, and permuting the
local pchannel list never changes the accept/reject verdict. -/
theorem C6_relevance_multiset (p : String → Bool) (cfg : ReplicateConfiguration)
    (cur : Option ReplicateConfiguration) (lid : String) (lchans : List String) :
    ((Validate p (some cfg) cur lid lchans).isOk = true →
      ∃ oc ∈ cfg.clusters, getClusterId oc = lid ∧
        lchans.length = (getPchannels oc).length ∧
        ∀ s, countStr lchans s = countStr (getPchannels oc) s) ∧
    (∀ lchans', lchans.Perm lchans' →
      (Validate p (some cfg) cur lid lchans).isOk
        = (Validate p (some cfg) cur lid lchans').isOk) := by
  constructor
  · intro hok
    have hok' : Validate p (some cfg) cur lid lchans = .ok () := by
      cases h : Validate p (some cfg) cur lid lchans with
      | ok u => cases u; rfl
      | error e => rw [h] at hok; simp [Except.isOk, Except.toBool] at hok
    obtain ⟨hcne, hb, hr, hu, hs⟩ := runValidate_ok_parts hok'
    obtain ⟨oc, hlk, heio⟩ := validateRelevance_ok hr
    have hocmem : (lid, oc) ∈ cfg.clusters.map entryOf := lookupStr_mem hlk
    obtain ⟨oc', hoc', hent⟩ := List.mem_map.mp hocmem
    have h1 : getClusterId oc' = lid := congrArg Prod.fst hent
    have h2 : oc' = oc := congrArg Prod.snd hent
    subst h2
    have hperm := (equalIgnoreOrder_iff_perm _ _).mp heio
    refine ⟨oc', hoc', h1, hperm.length_eq, fun s => ?_⟩
    rw [countStr_eq_count, countStr_eq_count]
    exact hperm.count_eq s
  · intro lchans' hp
    by_cases hne : cfg.clusters = []
    · simp [Validate, runValidate, hne]
    cases hb : validateClusterBasic p cfg.clusters with
    | error e => simp [Validate, runValidate, hne, hb]
    | ok m =>
      cases hlk : lookupStr m lid with
      | none =>
        have h1 : validateRelevance m lid lchans = .error (.notIncluded lid) := by
          simp [validateRelevance, hlk]
        have h2 : validateRelevance m lid lchans' = .error (.notIncluded lid) := by
          simp [validateRelevance, hlk]
        simp [Validate, runValidate, hne, hb, h1, h2]
      | some oc =>
        have heq : equalIgnoreOrder lchans (getPchannels oc)
            = equalIgnoreOrder lchans' (getPchannels oc) :=
          equalIgnoreOrder_perm_left hp _
        by_cases heio : equalIgnoreOrder lchans (getPchannels oc) = true
        · have h1 : validateRelevance m lid lchans = .ok () := by
            simp [validateRelevance, hlk, heio]
          have h2 : validateRelevance m lid lchans' = .ok () := by
            simp [validateRelevance, hlk, ← heq, heio]
          simp [Validate, runValidate, hne, hb, h1, h2]
        · have h1 : validateRelevance m lid lchans
              = .error (.relevanceMismatch lchans (getPchannels oc)) := by
            simp [validateRelevance, hlk, heio]
          have h2 : validateRelevance m lid lchans'
              = .error (.relevanceMismatch lchans' (getPchannels oc)) := by
            have hne2 : ¬ equalIgnoreOrder lchans' (getPchannels oc) = true := by
              rw [← heq]
              exact heio
            simp [validateRelevance, hlk, hne2]
          simp [Validate, runValidate, hne, hb, h1, h2, Except.isOk, Except.toBool]

/-- Witness for C6 at the concrete star configuration. -/
theorem C6_relevance_multiset_witness :
    (Validate parseURIAlways (some starCfg) none "c1" ["ch"]).isOk = true ∧
    (∃ oc ∈ starCfg.clusters, getClusterId oc = "c1" ∧
      (["ch"] : List String).length = (getPchannels oc).length ∧
      ∀ s, countStr ["ch"] s = countStr (getPchannels oc) s) :=
  ⟨by decide,
    (C6_relevance_multiset parseURIAlways starCfg none "c1" ["ch"]).1 (by decide)⟩

theorem validateConfigComparison_unchanged {ic cc : Option ReplicateConfiguration}
    {m : List (String × Option MilvusCluster)}
    (hall : ∀ oc ∈ getClusters ic, ∀ cc',
      lookupStr (buildCurrentMap (getClusters cc)) (getClusterId oc) = some cc' →
      getPchannels cc' = getPchannels oc ∧
      getUri (getConnectionParam cc') = getUri (getConnectionParam oc) ∧
      getToken (getConnectionParam cc') = getToken (getConnectionParam oc)) :
    validateConfigComparison ic cc m false = (.ok (), false) := by
  simp only [validateConfigComparison]
  rw [consistencyLoop_unchanged false hall]
  rfl

/-- Claim C5: idempotence: when Validate(x, nil, local, localChans) succeeds,
Validate(x, x, local, localChans) succeeds as well and
IsPChannelIncreasing() afterwards returns false. -/
theorem C5_idempotence (p : String → Bool) (cfg : ReplicateConfiguration)
    (lid : String) (lchans : List String)
    (hok : Validate p (some cfg) none lid lchans = .ok ()) :
    Validate p (some cfg) (some cfg) lid lchans = .ok () ∧
    IsPChannelIncreasing p (some cfg) (some cfg) lid lchans = false := by
  obtain ⟨hcne, hb, hr, hu, hs⟩ := runValidate_ok_parts hok
  obtain ⟨-, hsome, -, hnd⟩ := validateClusterBasic_ok hb
  have hrun := @runValidate_some_eq p cfg cfg lid lchans _ hcne hb hr hu hs
  have hbc : buildCurrentMap (getClusters (some cfg)) = cfg.clusters.map entryOf := by
    show buildCurrentMap cfg.clusters = _
    exact buildCurrentMap_eq cfg.clusters hsome hnd
  have hall : ∀ oc ∈ getClusters (some cfg), ∀ cc',
      lookupStr (buildCurrentMap (getClusters (some cfg))) (getClusterId oc) = some cc' →
      getPchannels cc' = getPchannels oc ∧
      getUri (getConnectionParam cc') = getUri (getConnectionParam oc) ∧
      getToken (getConnectionParam cc') = getToken (getConnectionParam oc) := by
    intro oc hoc cc' hcc
    rw [hbc, lookupStr_entries hnd hoc] at hcc
    injection hcc with hcc
    subst hcc
    exact ⟨rfl, rfl, rfl⟩
  have hcmp := @validateConfigComparison_unchanged (some cfg) (some cfg)
    (cfg.clusters.map entryOf) hall
  constructor
  · simp only [Validate]
    rw [hrun, hcmp]
  · simp only [IsPChannelIncreasing]
    rw [hrun, hcmp]

/-- Witness for C5 at the concrete star configuration. -/
theorem C5_idempotence_witness :
    Validate parseURIAlways (some starCfg) none "c1" ["ch"] = .ok () ∧
    (Validate parseURIAlways (some starCfg) (some starCfg) "c1" ["ch"] = .ok () ∧
     IsPChannelIncreasing parseURIAlways (some starCfg) (some starCfg) "c1" ["ch"] = false) :=
  ⟨by decide, C5_idempotence parseURIAlways starCfg "c1" ["ch"] (by decide)⟩

/-- Claim C8: when no shared cluster grows, the transition check constrains
neither membership nor topology: an incoming configuration that passes the
structural checks and, for every cluster shared with the current
configuration, keeps pchannels, URI and token unchanged, is accepted
whatever the current cluster set and edge set are. -/
theorem C8_nongrowth_freedom (p : String → Bool) (cfg ccfg : ReplicateConfiguration)
    (lid : String) (lchans : List String)
    (hstruct : Validate p (some cfg) none lid lchans = .ok ())
    (hcons : ∀ oc ∈ cfg.clusters, ∀ cc,
      lookupStr (buildCurrentMap ccfg.clusters) (getClusterId oc) = some cc →
      getPchannels cc = getPchannels oc ∧
      getUri (getConnectionParam cc) = getUri (getConnectionParam oc) ∧
      getToken (getConnectionParam cc) = getToken (getConnectionParam oc)) :
    Validate p (some cfg) (some ccfg) lid lchans = .ok () ∧
    IsPChannelIncreasing p (some cfg) (some ccfg) lid lchans = false := by
  obtain ⟨hcne, hb, hr, hu, hs⟩ := runValidate_ok_parts hstruct
  have hrun := @runValidate_some_eq p cfg ccfg lid lchans _ hcne hb hr hu hs
  have hcmp := @validateConfigComparison_unchanged (some cfg) (some ccfg)
    (cfg.clusters.map entryOf) hcons
  constructor
  · simp only [Validate]
    rw [hrun, hcmp]
  · simp only [IsPChannelIncreasing]
    rw [hrun, hcmp]

/-- Witness for C8: the star configuration is accepted against a one-cluster
current configuration whose cluster set and edge set both differ. -/
theorem C8_nongrowth_freedom_witness :
    Validate parseURIAlways (some starCfg) none "c1" ["ch"] = .ok () ∧
    sameMembers (starCfg.clusters.map getClusterId)
      (keysOf (buildCurrentMap oneClusterCur.clusters)) = false ∧
    (Validate parseURIAlways (some starCfg) (some oneClusterCur) "c1" ["ch"] = .ok () ∧
     IsPChannelIncreasing parseURIAlways (some starCfg) (some oneClusterCur) "c1" ["ch"] = false) :=
  ⟨by decide, by decide,
    C8_nongrowth_freedom parseURIAlways starCfg oneClusterCur "c1" ["ch"] (by decide)
      (by
        intro oc hoc
        fin_cases hoc <;> intro cc hcc <;>
          first
            | exact Option.noConfusion
                (show (none : Option (Option MilvusCluster)) = some cc from hcc)
            | (injection (show some _ = some cc from hcc) with h2
               subst h2
               exact ⟨rfl, rfl, rfl⟩))⟩

theorem validateConfigComparison_ok_inv {ic cc : Option ReplicateConfiguration}
    {m : List (String × Option MilvusCluster)} {flag f : Bool}
    (h : validateConfigComparison ic cc m flag = (.ok (), f)) :
    consistencyLoop (buildCurrentMap (getClusters cc)) (getClusters ic) flag = (.ok (), f) ∧
    (f = true → validatePChannelIncreasingConstraints (buildCurrentMap (getClusters cc)) m
      (getCrossClusterTopology cc) (getCrossClusterTopology ic) = .ok ()) := by
  simp only [validateConfigComparison] at h
  split at h
  · exact absurd (congrArg Prod.fst h) (by simp)
  · rename_i u flag' hloop
    cases u
    split at h
    · rename_i hf'
      rw [Prod.mk.injEq] at h
      obtain ⟨h1, h2⟩ := h
      subst h2
      exact ⟨hloop, fun _ => h1⟩
    · rename_i hf'
      rw [Prod.mk.injEq] at h
      obtain ⟨-, h2⟩ := h
      subst h2
      refine ⟨hloop, fun hf => ?_⟩
      exact absurd hf hf'

/-- Claim C3: if Validate(new, cur, local, localChans) succeeds and
IsPChannelIncreasing() afterwards returns true, then for every cluster
present in both configurations the current pchannel list is a position-wise
prefix of the incoming one, and for at least one shared cluster the incoming
list is strictly longer. -/
theorem C3_growth_monotonicity (p : String → Bool) (cfg ccfg : ReplicateConfiguration)
    (lid : String) (lchans : List String)
    (hok : Validate p (some cfg) (some ccfg) lid lchans = .ok ())
    (hflag : IsPChannelIncreasing p (some cfg) (some ccfg) lid lchans = true) :
    (∀ oc ∈ cfg.clusters, ∀ cc,
      lookupStr (buildCurrentMap ccfg.clusters) (getClusterId oc) = some cc →
      getPchannels cc <+: getPchannels oc) ∧
    (∃ oc ∈ cfg.clusters, ∃ cc,
      lookupStr (buildCurrentMap ccfg.clusters) (getClusterId oc) = some cc ∧
      (getPchannels cc).length < (getPchannels oc).length) := by
  obtain ⟨hcne, hb, hr, hu, hs⟩ := runValidate_ok_parts hok
  have hrun := @runValidate_some_eq p cfg ccfg lid lchans _ hcne hb hr hu hs
  simp only [Validate] at hok
  simp only [IsPChannelIncreasing] at hflag
  rw [hrun] at hok hflag
  have hpair : validateConfigComparison (some cfg) (some ccfg)
      (cfg.clusters.map entryOf) false = (.ok (), true) := by
    rw [Prod.ext_iff]
    exact ⟨hok, hflag⟩
  obtain ⟨hloop, -⟩ := validateConfigComparison_ok_inv hpair
  constructor
  · intro oc hoc cc hcc
    exact (consistencyLoop_ok_forall hloop oc hoc cc hcc).1
  · exact consistencyLoop_growth_of_flag hloop rfl rfl

/-- Witness for C3 at the concrete two-cluster growth example. -/
theorem C3_growth_monotonicity_witness :
    Validate parseURIAlways (some growInc) (some growCur) "c1" ["p", "q"] = .ok () ∧
    IsPChannelIncreasing parseURIAlways (some growInc) (some growCur) "c1" ["p", "q"] = true ∧
    ((∀ oc ∈ growInc.clusters, ∀ cc,
      lookupStr (buildCurrentMap growCur.clusters) (getClusterId oc) = some cc →
      getPchannels cc <+: getPchannels oc) ∧
    (∃ oc ∈ growInc.clusters, ∃ cc,
      lookupStr (buildCurrentMap growCur.clusters) (getClusterId oc) = some cc ∧
      (getPchannels cc).length < (getPchannels oc).length)) :=
  ⟨by decide, by decide,
    C3_growth_monotonicity parseURIAlways growInc growCur "c1" ["p", "q"]
      (by decide) (by decide)⟩

/-- Counterexample to claim C2 as stated: with cluster ids containing the
"->" separator, Validate succeeds although growth is detected and the sets
of (source, target) edge pairs of incoming and current differ — the
growth-mode comparison conflates distinct pairs whose rendered keys
coincide (here a → a->a versus a->a → a, both rendered a->a->a).  The
input's URIs "http://u1" and "http://u2" are accepted by
`url.ParseRequestURI`, so the run agrees with the program at this input. -/
theorem C2_growth_exclusion_counterexample :
    (∃ oc ∈ keyClashInc.clusters, ∃ cc,
      lookupStr (buildCurrentMap keyClashCur.clusters) (getClusterId oc) = some cc ∧
      (getPchannels cc).length < (getPchannels oc).length) ∧
    sameMembers (keyClashInc.crossClusterTopology.map edgePair)
      (keyClashCur.crossClusterTopology.map edgePair) = false ∧
    (Validate parseURIAlways (some keyClashInc) (some keyClashCur) "a" ["p", "q"]).isOk
      = true :=
  ⟨⟨some ⟨"a", some ⟨"http://u1", "t"⟩, ["p", "q"]⟩, by decide,
    some ⟨"a", some ⟨"http://u1", "t"⟩, ["p"]⟩, by decide, by decide⟩,
   by decide, by decide⟩

/-- Claim C2 (amended): Validate fails whenever growth is detected for some
cluster present in both configurations and either the cluster-id sets differ
or the rendered edge-key ("source->target") sets differ between incoming and
current. (The claim as stated compared edges as (source, target) pairs; the
code compares rendered keys, which conflates distinct pairs exactly when
cluster ids contain the separator.) -/
theorem C2_growth_exclusion_amended (p : String → Bool) (cfg ccfg : ReplicateConfiguration)
    (lid : String) (lchans : List String)
    (hgrow : ∃ oc ∈ cfg.clusters, ∃ cc,
      lookupStr (buildCurrentMap ccfg.clusters) (getClusterId oc) = some cc ∧
      (getPchannels cc).length < (getPchannels oc).length)
    (hdiff : sameMembers (cfg.clusters.map getClusterId)
        (keysOf (buildCurrentMap ccfg.clusters)) = false ∨
      sameMembers (cfg.crossClusterTopology.map edgeKey)
        (ccfg.crossClusterTopology.map edgeKey) = false) :
    (Validate p (some cfg) (some ccfg) lid lchans).isOk = false := by
  by_contra hok0
  rw [Bool.not_eq_false] at hok0
  have hok : Validate p (some cfg) (some ccfg) lid lchans = .ok () := by
    cases h : Validate p (some cfg) (some ccfg) lid lchans with
    | ok u => cases u; rfl
    | error e => rw [h] at hok0; simp [Except.isOk, Except.toBool] at hok0
  obtain ⟨hcne, hb, hr, hu, hs⟩ := runValidate_ok_parts hok
  obtain ⟨-, -, -, hidnd⟩ := validateClusterBasic_ok hb
  obtain ⟨-, hknd⟩ := validateTopologyEdgeUniqueness_ok hu
  have hrun := @runValidate_some_eq p cfg ccfg lid lchans _ hcne hb hr hu hs
  simp only [Validate] at hok
  rw [hrun] at hok
  have hpair : validateConfigComparison (some cfg) (some ccfg)
      (cfg.clusters.map entryOf) false
      = (.ok (), (validateConfigComparison (some cfg) (some ccfg)
          (cfg.clusters.map entryOf) false).2) := by
    cases hcmp : validateConfigComparison (some cfg) (some ccfg)
        (cfg.clusters.map entryOf) false with
    | mk r f =>
      rw [hcmp] at hok
      have hr' : r = .ok () := hok
      subst hr'
      rfl
  obtain ⟨hloop, hconstr⟩ := validateConfigComparison_ok_inv hpair
  obtain ⟨oc, hoc, cc, hcc, hlt⟩ := hgrow
  have hf : (validateConfigComparison (some cfg) (some ccfg)
      (cfg.clusters.map entryOf) false).2 = true :=
    (consistencyLoop_ok_forall hloop oc hoc cc hcc).2.2.2 hlt
  have hc := hconstr hf
  obtain ⟨hlen, hsubk, htlen, hesub⟩ := validatePChannelIncreasingConstraints_ok hc
  -- cluster-id sets are equal
  have hcurnd : (keysOf (buildCurrentMap (getClusters (some ccfg)))).Nodup :=
    buildCurrentMap_keys_nodup _
  have hlenk : (keysOf (cfg.clusters.map entryOf)).length
      ≤ (keysOf (buildCurrentMap (getClusters (some ccfg)))).length := by
    simp only [keysOf, List.length_map]
    rw [List.length_map] at hlen
    exact le_of_eq hlen.symm
  have hback := mem_of_subset_len hsubk hcurnd hlenk
  have hsm1 : sameMembers (cfg.clusters.map getClusterId)
      (keysOf (buildCurrentMap ccfg.clusters)) = true := by
    apply sameMembers_of_iff
    intro x
    constructor
    · intro hx
      apply hback
      rw [keysOf_entries]
      exact hx
    · intro hx
      have hx2 := hsubk x hx
      rwa [keysOf_entries] at hx2
  -- edge-key sets are equal
  have hesub' : ∀ x ∈ cfg.crossClusterTopology.map edgeKey,
      x ∈ ccfg.crossClusterTopology.map edgeKey := by
    intro x hx
    obtain ⟨t, ht, rfl⟩ := List.mem_map.mp hx
    exact hesub t ht
  have hlene : (ccfg.crossClusterTopology.map edgeKey).length
      ≤ (cfg.crossClusterTopology.map edgeKey).length := by
    rw [List.length_map, List.length_map]
    exact le_of_eq htlen
  have heback := mem_of_subset_len hesub' hknd hlene
  have hsm2 : sameMembers (cfg.crossClusterTopology.map edgeKey)
      (ccfg.crossClusterTopology.map edgeKey) = true :=
    sameMembers_of_iff (fun x => ⟨fun hx => hesub' x hx, fun hx => heback x hx⟩)
  rcases hdiff with hd | hd
  · rw [hsm1] at hd
    exact Bool.noConfusion hd
  · rw [hsm2] at hd
    exact Bool.noConfusion hd

/-- Witness for the amended C2: growth combined with an added cluster and
edge is rejected. -/
theorem C2_growth_exclusion_amended_witness :
    (∃ oc ∈ growPlusNewInc.clusters, ∃ cc,
      lookupStr (buildCurrentMap growCur.clusters) (getClusterId oc) = some cc ∧
      (getPchannels cc).length < (getPchannels oc).length) ∧
    sameMembers (growPlusNewInc.clusters.map getClusterId)
      (keysOf (buildCurrentMap growCur.clusters)) = false ∧
    (Validate parseURIAlways (some growPlusNewInc) (some growCur) "c1" ["p", "q"]).isOk
      = false :=
  ⟨⟨some ⟨"c1", some ⟨"http://u1", ""⟩, ["p", "q"]⟩, by decide,
    some ⟨"c1", some ⟨"http://u1", ""⟩, ["p"]⟩, by decide, by decide⟩,
   by decide,
   C2_growth_exclusion_amended parseURIAlways growPlusNewInc growCur "c1" ["p", "q"]
     ⟨some ⟨"c1", some ⟨"http://u1", ""⟩, ["p", "q"]⟩, by decide,
      some ⟨"c1", some ⟨"http://u1", ""⟩, ["p"]⟩, by decide, by decide⟩
     (Or.inl (by decide))⟩

/-- Counterexample to claim C4 as stated: Validate fails with a token-change
error, yet IsPChannelIncreasing() afterwards returns true, because growth
was recorded for the cluster before its token check failed.  The input's
URI "http://u1" is accepted by `url.ParseRequestURI`, so the run agrees
with the program at this input. -/
theorem C4_no_partial_state_counterexample :
    (Validate parseURIAlways (some tokenGrowInc) (some tokenGrowCur) "a" ["p", "q"]).isOk
      = false ∧
    IsPChannelIncreasing parseURIAlways (some tokenGrowInc) (some tokenGrowCur) "a"
      ["p", "q"] = true := by
  decide

/-- Claim C4 (amended): after a failed Validate the growth flag may be true;
it is false whenever the returned error does not come from the transition
phase, that is, whenever its phase is at most 4 (entry pre-checks,
cluster-basic, relevance, edge-uniqueness, star shape). -/
theorem C4_flag_after_failure_amended (p : String → Bool)
    (inc cur : Option ReplicateConfiguration) (lid : String) (lchans : List String)
    (e : ValidationError)
    (herr : Validate p inc cur lid lchans = .error e)
    (hph : phaseOfError e ≤ 4) :
    IsPChannelIncreasing p inc cur lid lchans = false := by
  simp only [Validate] at herr
  simp only [IsPChannelIncreasing]
  by_cases hf : (runValidate p inc cur lid lchans).2 = true
  · have hpair : runValidate p inc cur lid lchans = (.error e, true) := by
      rw [Prod.ext_iff]
      exact ⟨herr, hf⟩
    have h5 := runValidate_err_true_phase hpair
    omega
  · rwa [Bool.not_eq_true] at hf

/-- Witness for the amended C4: a cluster-basic failure leaves the flag
false. -/
theorem C4_flag_after_failure_amended_witness :
    Validate parseURIAlways (some emptyIdCfg) (some emptyIdCfg) "x" ["p"]
      = .error (.emptyClusterID 0) ∧
    phaseOfError (.emptyClusterID 0) ≤ 4 ∧
    IsPChannelIncreasing parseURIAlways (some emptyIdCfg) (some emptyIdCfg) "x" ["p"]
      = false :=
  ⟨by decide, by decide,
    C4_flag_after_failure_amended parseURIAlways (some emptyIdCfg) (some emptyIdCfg)
      "x" ["p"] (.emptyClusterID 0) (by decide) (by decide)⟩

/-- Claim C9: the "multiple center nodes" branch of the star check is
unreachable: once edge uniqueness passes on a non-empty edge list over
distinct declared cluster ids, at most one cluster can simultaneously have
out-degree |clusters| - 1 and in-degree 0, so the star check never returns
the multiple-center error. -/
theorem C9_multiple_center_unreachable (cmap : List (String × Option MilvusCluster))
    (ts : List (Option CrossClusterTopology))
    (hnd : (keysOf cmap).Nodup) (_hne : ts ≠ [])
    (huniq : validateTopologyEdgeUniqueness cmap ts = .ok ()) :
    (∀ c1 c2, c1 ∈ keysOf cmap → c2 ∈ keysOf cmap →
      outDeg ts c1 = cmap.length - 1 → inDeg ts c1 = 0 →
      outDeg ts c2 = cmap.length - 1 → inDeg ts c2 = 0 → c1 = c2) ∧
    validateTopologyTypeConstraint cmap ts ≠ .error .multipleCenterNodes := by
  obtain ⟨hend, hknd⟩ := validateTopologyEdgeUniqueness_ok huniq
  have hmain : ∀ c1 c2, c1 ∈ keysOf cmap → c2 ∈ keysOf cmap →
      outDeg ts c1 = cmap.length - 1 → inDeg ts c1 = 0 →
      outDeg ts c2 = cmap.length - 1 → inDeg ts c2 = 0 → c1 = c2 := by
    intro c1 c2 h1 h2 ho1 hi1 ho2 hi2
    exact at_most_one_center hnd hend hknd h1 h2 ⟨ho1, hi1⟩ ⟨ho2, hi2⟩
  refine ⟨hmain, ?_⟩
  intro hc
  obtain ⟨c1, h1, c2, h2, hcne, hq1, hq2⟩ :=
    validateTopologyTypeConstraint_err_multiple hnd hc
  exact hcne (hmain c1 c2 h1 h2 hq1.1 hq1.2 hq2.1 hq2.2)

/-- Witness for C9 at the star configuration's cluster map and edges. -/
theorem C9_multiple_center_unreachable_witness :
    (keysOf (starCfg.clusters.map entryOf)).Nodup ∧
    starCfg.crossClusterTopology ≠ [] ∧
    validateTopologyEdgeUniqueness (starCfg.clusters.map entryOf)
      starCfg.crossClusterTopology = .ok () ∧
    validateTopologyTypeConstraint (starCfg.clusters.map entryOf)
      starCfg.crossClusterTopology ≠ .error .multipleCenterNodes :=
  ⟨by decide, by decide, by decide,
    (C9_multiple_center_unreachable (starCfg.clusters.map entryOf)
      starCfg.crossClusterTopology (by decide) (by decide) (by decide)).2⟩

end ReplicateUtil
